import Mathlib

/-!
# Spiral survey item: transect generation, ordering and camera shot counting

A shallow embedding of `src/MissionManager/SpiralComplexItem.cc`.

* Numbers (`double` in the source) are elements of a linearly ordered field
  `α` with a floor function, so that every statement is one of exact
  arithmetic.  The hover point count, which the source converts to a 32-bit
  `int`, goes through `staticCastInt`.
* `QGeoCoordinate` is an arbitrary type `C`.  The geodesy and libm routines
  the source calls (`distanceTo`, `azimuthTo`, `atDistanceAndAzimuth`,
  `QGCGeo::convertNedToGeo`, `cos`, `sin`, `M_PI`, `QGCMapPolygon::center`)
  are the fields of `Env`: they are external to the file and nothing is
  assumed about them unless a theorem says so.
* `QList` accesses that the source performs without a bounds check
  (`first()`, `last()`, `operator[]`) return `Except Fault`, so an access
  outside the list is visible as `Fault.indexOutOfRange`.
* The `while (true)` loop of the generator takes a fuel argument; running out
  of fuel is `Fault.outOfFuel`.
-/

namespace SpiralComplexItem

/-! ## Data model -/

/-- The two ways in which a run of the embedded code fails to produce a value. -/
inductive Fault where
  | indexOutOfRange
  | outOfFuel
  deriving DecidableEq, Repr

/-- Tag of a point of a transect, `TransectStyleComplexItem::CoordType_t`
(the enumerants this file uses). -/
inductive CoordType where
  | CoordTypeInterior
  | CoordTypeInteriorHoverTrigger
  | CoordTypeSurveyEntry
  | CoordTypeSurveyExit
  deriving DecidableEq, Repr

/-- A tagged point, `TransectStyleComplexItem::CoordInfo_t`. -/
structure CoordInfo_t (C : Type) where
  coord : C
  coordType : CoordType
  deriving DecidableEq, Repr

/-- The fields of a `MissionItem` that `_recalcCameraShots` reads. -/
structure MissionItem (α : Type) where
  command : Nat
  param1 : α
  param5 : α
  param6 : α
  deriving DecidableEq, Repr

/-- MAVLink command number of `MAV_CMD_NAV_WAYPOINT`. -/
def MAV_CMD_NAV_WAYPOINT : Nat := 16

/-- MAVLink command number of `MAV_CMD_DO_SET_CAM_TRIGG_DIST`. -/
def MAV_CMD_DO_SET_CAM_TRIGG_DIST : Nat := 206

/-- MAVLink command number of `MAV_CMD_IMAGE_START_CAPTURE`. -/
def MAV_CMD_IMAGE_START_CAPTURE : Nat := 2000

/-- The routines of Qt, QGCGeo and libm that the source calls.  `invalid` is the
default-constructed `QGeoCoordinate()` and `mkCoord lat lon` is
`QGeoCoordinate(lat, lon)`. -/
structure Env (α C : Type) where
  distanceTo : C → C → α
  azimuthTo : C → C → α
  atDistanceAndAzimuth : C → α → α → C
  convertNedToGeo : α → α → α → C → C
  center : List C → C
  mkCoord : α → α → C
  invalid : C
  cos : α → α
  sin : α → α
  pi : α

/-- The members of the item (and of its base class) read or written by the
embedded methods.  `triggerCamera`, `hoverAndCaptureEnabled`, `triggerDistance`
and `_turnAroundDistance` are the values returned by the base-class methods of
the same names. -/
structure State (α C : Type) where
  _ignoreRecalc : Bool
  _loadedMissionItemsParent : Bool
  _loadedMissionItems : List (MissionItem α)
  _surveyAreaPolygon : List C
  _radiusFact : α
  _resolutionFact : α
  _distanceBetweenSpiralsFact : α
  _flyAlternateTransectsFact : Bool
  _refly90DegreesFact : Bool
  _Rotate : Bool
  _entryPoint : Int
  _transects : List (List (CoordInfo_t C))
  triggerCamera : Bool
  hoverAndCaptureEnabled : Bool
  triggerDistance : α
  _turnAroundDistance : α
  _cameraTriggerInTurnAroundFact : Bool
  _complexDistance : α
  _cameraShots : Int
  _hoverAndCaptureDelaySeconds : α

/-! ## `QList` accessors -/

/-- The accessor `QList::first()`: undefined on an empty list. -/
def qFirst {β : Type} (l : List β) : Except Fault β :=
  match l with
  | [] => .error .indexOutOfRange
  | x :: _ => .ok x

/-- The accessor `QList::last()`: undefined on an empty list. -/
def qLast {β : Type} (l : List β) : Except Fault β :=
  match l.getLast? with
  | none => .error .indexOutOfRange
  | some x => .ok x

/-- The accessor `QList::operator[]`: undefined outside `0 .. count()-1`. -/
def qAt {β : Type} (l : List β) (i : Nat) : Except Fault β :=
  match l[i]? with
  | none => .error .indexOutOfRange
  | some x => .ok x

/-! ## Reversals (lines 356-377) -/

/-- The loop `for (int i = n - 1; i >= 0; i--) acc.append(xs[i]);` started
with `i + 1 = n`.  Every index it visits is below `n`. -/
def appendDownFrom {β : Type} (xs : List β) : Nat → List β → List β
  | 0, acc => acc
  | i + 1, acc =>
    appendDownFrom xs i (match xs[i]? with
      | some x => acc ++ [x]
      | none => acc)

/-- The method `_reverseTransectOrder`: first transect becomes last and so forth. -/
def _reverseTransectOrder {C : Type} (transects : List (List C)) : List (List C) :=
  appendDownFrom transects transects.length []

/-- The method `_reverseInternalTransectPoints`: every transect is replaced, in place, by
the list of its points read from the last to the first. -/
def _reverseInternalTransectPoints {C : Type} (transects : List (List C)) :
    List (List C) :=
  transects.map (fun rgOriginalCoords =>
    appendDownFrom rgOriginalCoords rgOriginalCoords.length [])

/-! ## Shortest-distance optimisation (lines 379-408) -/

/-- One pass of the body of the scan `if (rg[i] < shortestDistance) ...`. -/
def scanStep {α : Type} [LinearOrder α] (rgTransectDistance : Nat → α)
    (st : Nat × α) (i : Nat) : Nat × α :=
  if rgTransectDistance i < st.2 then (i, rgTransectDistance i) else st

/-- The index chosen by `for (int i=1; i<3; i++)` over the four distances. -/
def shortestIndex {α : Type} [LinearOrder α] (d0 d1 d2 d3 : α) : Nat :=
  let rgTransectDistance : Nat → α := fun i =>
    match i with
    | 0 => d0
    | 1 => d1
    | 2 => d2
    | _ => d3
  ((List.range' 1 2).foldl (scanStep rgTransectDistance) (0, rgTransectDistance 0)).1

/-- The method `_optimizeTransectsForShortestDistance` (the scan is `shortestIndex`). -/
def _optimizeTransectsForShortestDistance {α C : Type} [LinearOrder α]
    (env : Env α C) (distanceCoord : C) (transects : List (List C)) :
    Except Fault (List (List C)) := do
  let tFirst ← qFirst transects
  let tLast ← qLast transects
  let d0 := env.distanceTo (← qFirst tFirst) distanceCoord
  let d1 := env.distanceTo (← qLast tFirst) distanceCoord
  let d2 := env.distanceTo (← qFirst tLast) distanceCoord
  let d3 := env.distanceTo (← qLast tLast) distanceCoord
  let k := shortestIndex d0 d1 d2 d3
  let transects := if k > 1 then _reverseTransectOrder transects else transects
  let transects := if k &&& 1 ≠ 0 then _reverseInternalTransectPoints transects
    else transects
  return transects

/-! ## Entry point adjustment (lines 410-421) -/

/-- The method `_adjustTransectsToEntryPointLocation`.  The member `_entryPoint` is not
read. -/
def _adjustTransectsToEntryPointLocation {α C : Type} (s : State α C)
    (transects : List (List C)) : List (List C) :=
  if transects.length = 0 then transects
  else if s._Rotate then
    _reverseTransectOrder (_reverseInternalTransectPoints transects)
  else transects

/-- The method `_hasTurnaround`. -/
def _hasTurnaround {α C : Type} [LinearOrderedField α] (s : State α C) : Bool :=
  decide (s._turnAroundDistance > 0)

/-! ## Spiral generation (lines 492-526) -/

/-- The `while (true)` loop of the generator, started at angle `ang`.
`mkPoint r ang` stands for the three statements that turn a sample into a point
(`x_meters = r * cos(ang)`, `y_meters = r * sin(ang)`, `convertNedToGeo`); the
loop itself only computes with the angle and the radius. -/
def spiralLoop {α P : Type} [LinearOrderedField α] (mkPoint : α → α → P)
    (pi radius distance_between_spirals angle_increment : α) :
    Nat → α → Except Fault (List (List P))
  | 0, _ => .error .outOfFuel
  | fuel + 1, ang =>
    let r := (distance_between_spirals * ang) / (2 * pi)
    if r > radius then .ok []
    else
      let coord1 := mkPoint r ang
      let ang := ang + angle_increment
      let r2 := (distance_between_spirals * ang) / (2 * pi)
      let coord2 := mkPoint r2 ang
      let ang := ang + angle_increment
      match spiralLoop mkPoint pi radius distance_between_spirals angle_increment fuel ang with
      | .error e => .error e
      | .ok rest => .ok ([coord1, coord2] :: rest)

/-- The point the generator emits for the sample of radius `r` at angle `ang`. -/
def spiralCoord {α C : Type} [LinearOrderedField α] (env : Env α C) (center : C)
    (r ang : α) : C :=
  let x_meters := r * env.cos ang
  let y_meters := r * env.sin ang
  env.convertNedToGeo y_meters x_meters 0 center

/-- A sample of the spiral: its angle and the radius the generator computed
for it. -/
structure Sample (α : Type) where
  r : α
  ang : α
  deriving DecidableEq, Repr

/-- The segment the generator emits in iteration `k` when started at `a0`. -/
def spiralSegment {α P : Type} [LinearOrderedField α] (mkPoint : α → α → P)
    (pi dbs inc a0 : α) (k : Nat) : List P :=
  [mkPoint (dbs * (a0 + 2 * k * inc) / (2 * pi)) (a0 + 2 * k * inc),
   mkPoint (dbs * (a0 + (2 * k + 1) * inc) / (2 * pi)) (a0 + (2 * k + 1) * inc)]

/-! ## Alternate transects (lines 534-552) -/

/-- The loop `for (i = 0; i < count; i++) if (i % 2 == 0) append(transects[i])`. -/
def appendEvenUp {β : Type} (xs : List β) : List β :=
  (List.range xs.length).foldl (fun acc i =>
    if i % 2 = 0 then
      (match xs[i]? with
        | some x => acc ++ [x]
        | none => acc)
    else acc) []

/-- The loop `for (i = n - 1; i >= 0; i--) if (i % 2 != 0) append(transects[i])`
started with `i + 1 = n`. -/
def appendOddDownFrom {β : Type} (xs : List β) : Nat → List β → List β
  | 0, acc => acc
  | i + 1, acc =>
    appendOddDownFrom xs i
      (if i % 2 ≠ 0 then
        (match xs[i]? with
          | some x => acc ++ [x]
          | none => acc)
      else acc)

/-- The body of `if (_flyAlternateTransectsFact...)`: the list that replaces
`transects`. -/
def alternatingTransects {β : Type} (transects : List β) : List β :=
  appendOddDownFrom transects transects.length (appendEvenUp transects)

/-- The transect list after the `flyAlternateTransects` step. -/
def applyAlternate {β : Type} (flyAlternateTransects : Bool) (transects : List β) :
    List β :=
  if flyAlternateTransects then alternatingTransects transects else transects

/-! ## Conversion to tagged transects and hover points (lines 555-581) -/

/-- The conversion `static_cast<int>` of an integral `double` to the 32-bit
`int`: a value within `INT_MIN .. INT_MAX` is kept; for a value outside, where
the C++ standard defines no result, the value is `INT_MIN`, which is what the
conversion instruction of the usual targets delivers. -/
def staticCastInt (z : Int) : Int :=
  if -2147483648 ≤ z ∧ z ≤ 2147483647 then z else -2147483648

/-- The hover point inserted by iteration `i` of the inner loop. -/
def hoverPoint {α C : Type} [LinearOrderedField α] (env : Env α C)
    (triggerDistance : α) (t0 : C) (transectAzimuth : α) (i : Nat) : CoordInfo_t C :=
  { coord := env.atDistanceAndAzimuth t0 (triggerDistance * ((i : α) + 1)) transectAzimuth
    coordType := .CoordTypeInteriorHoverTrigger }

/-- The body of the loop over `transects`: the tagged transect appended to
`_transects`. -/
def coordInfoTransect {α C : Type} [LinearOrderedField α] [FloorRing α]
    (env : Env α C) (s : State α C) (transect : List C) :
    Except Fault (List (CoordInfo_t C)) := do
  let t0 ← qAt transect 0
  let t1 ← qAt transect 1
  let coordInfoTransect : List (CoordInfo_t C) :=
    [{ coord := t0, coordType := .CoordTypeSurveyEntry },
     { coord := t1, coordType := .CoordTypeSurveyExit }]
  if s.triggerCamera && s.hoverAndCaptureEnabled then
    let transectLength := env.distanceTo t0 t1
    let transectAzimuth := env.azimuthTo t0 t1
    if s.triggerDistance < transectLength then
      let cInnerHoverPoints : Int := staticCastInt ⌊transectLength / s.triggerDistance⌋
      return (List.range cInnerHoverPoints.toNat).foldl
        (fun acc i =>
          acc.insertIdx (1 + i) (hoverPoint env s.triggerDistance t0 transectAzimuth i))
        coordInfoTransect
    else return coordInfoTransect
  else return coordInfoTransect

/-- The loop `for (transect : transects) { ...; _transects.append(coordInfoTransect); }`,
with the value of `_transects` as accumulator. -/
def appendCoordInfoTransects {α C : Type} [LinearOrderedField α] [FloorRing α]
    (env : Env α C) (s : State α C) :
    List (List C) → List (List (CoordInfo_t C)) → Except Fault (List (List (CoordInfo_t C)))
  | [], _transects => .ok _transects
  | transect :: rest, _transects =>
    match coordInfoTransect env s transect with
    | .error e => .error e
    | .ok coordInfoTransect =>
      appendCoordInfoTransects env s rest (_transects ++ [coordInfoTransect])

/-! ## The worker (lines 455-582) -/

/-- The block `if (_loadedMissionItemsParent) { _loadedMissionItems.clear(); ...;
_loadedMissionItemsParent = nullptr; }` (lines 470-474). -/
def clearLoadedMissionItems {α C : Type} (s : State α C) : State α C :=
  if s._loadedMissionItemsParent then
    { s with _loadedMissionItems := [], _loadedMissionItemsParent := false }
  else s

/-- The method `_rebuildTransectsPhase1WorkerSinglePolygon`; `fuel` bounds the number of
tests of the generation loop. -/
def _rebuildTransectsPhase1WorkerSinglePolygon {α C : Type} [LinearOrderedField α]
    [FloorRing α] (env : Env α C) (fuel : Nat) (refly : Bool) (s : State α C) :
    Except Fault (State α C) :=
  if s._ignoreRecalc then .ok s
  else
    let s := clearLoadedMissionItems s
    if s._surveyAreaPolygon.length < 3 then .ok s
    else
      let center := env.center s._surveyAreaPolygon
      let radius := s._radiusFact
      let resolution := s._resolutionFact
      let distance_between_spirals := s._distanceBetweenSpiralsFact
      if radius ≤ 0 ∨ resolution ≤ 0 ∨ distance_between_spirals ≤ 0 then .ok s
      else do
        let angle_increment := 1 / resolution
        let transects ← spiralLoop (spiralCoord env center) env.pi radius
          distance_between_spirals angle_increment fuel 0
        let transects := _adjustTransectsToEntryPointLocation s transects
        let transects ←
          if refly then do
            let lastTransect ← qLast s._transects
            let lastPoint ← qLast lastTransect
            _optimizeTransectsForShortestDistance env lastPoint.coord transects
          else pure transects
        let transects := applyAlternate s._flyAlternateTransectsFact transects
        let _transects ← appendCoordInfoTransects env s transects s._transects
        return { s with _transects := _transects }

/-- The method `_rebuildTransectsPhase1`: the primary pass, then the refly pass if enabled. -/
def _rebuildTransectsPhase1 {α C : Type} [LinearOrderedField α] [FloorRing α]
    (env : Env α C) (fuel : Nat) (s : State α C) : Except Fault (State α C) := do
  let s ← _rebuildTransectsPhase1WorkerSinglePolygon env fuel false s
  if s._refly90DegreesFact then
    _rebuildTransectsPhase1WorkerSinglePolygon env fuel true s
  else pure s

/-! ## Camera shot count (lines 584-647) -/

/-- The function `qCeil`. -/
def qCeil {α : Type} [LinearOrderedField α] [FloorRing α] (v : α) : Int := ⌈v⌉

/-- The accessor `QList::operator[]` at an `int` index: undefined below zero as well. -/
def qAtInt {β : Type} (l : List β) (i : Int) : Except Fault β :=
  if i < 0 then .error .indexOutOfRange else qAt l i.toNat

/-- The locals of the replay of the loaded mission items, with the running
shot count. -/
structure Replay (C : Type) where
  waitingForTriggerStop : Bool
  distanceStartCoord : C
  distanceEndCoord : C
  cameraShots : Int

/-- One iteration of the replay loop (hover-and-capture off). -/
def replayStep {α C : Type} [LinearOrderedField α] [FloorRing α] (env : Env α C)
    (triggerDistance : α) (st : Replay C) (missionItem : MissionItem α) : Replay C :=
  if missionItem.command = MAV_CMD_NAV_WAYPOINT then
    if st.waitingForTriggerStop then
      { st with distanceEndCoord := env.mkCoord missionItem.param5 missionItem.param6 }
    else
      { st with distanceStartCoord := env.mkCoord missionItem.param5 missionItem.param6 }
  else if missionItem.command = MAV_CMD_DO_SET_CAM_TRIGG_DIST then
    if missionItem.param1 > 0 then
      { st with waitingForTriggerStop := true }
    else
      { waitingForTriggerStop := false
        cameraShots := st.cameraShots +
          qCeil (env.distanceTo st.distanceEndCoord st.distanceStartCoord / triggerDistance)
        distanceStartCoord := env.invalid
        distanceEndCoord := env.invalid }
  else st

/-- One iteration of the loop over `_transects` (no mission items loaded). -/
def transectShotsStep {α C : Type} [LinearOrderedField α] [FloorRing α]
    (env : Env α C) (s : State α C) (cameraShots : Int)
    (transect : List (CoordInfo_t C)) : Except Fault Int := do
  if _hasTurnaround s && !s.hoverAndCaptureEnabled then
    let firstCameraCoord := (← qAt transect 1).coord
    let lastCameraCoord := (← qAtInt transect ((transect.length : Int) - 2)).coord
    return cameraShots + qCeil (env.distanceTo firstCameraCoord lastCameraCoord / s.triggerDistance)
  else
    let firstCameraCoord := (← qFirst transect).coord
    let lastCameraCoord := (← qLast transect).coord
    return cameraShots + qCeil (env.distanceTo firstCameraCoord lastCameraCoord / s.triggerDistance)

/-- The value `_recalcCameraShots` leaves in `_cameraShots`. -/
def recalcCameraShotsValue {α C : Type} [LinearOrderedField α] [FloorRing α]
    (env : Env α C) (s : State α C) : Except Fault Int :=
  let triggerDistance := s.triggerDistance
  if triggerDistance = 0 then .ok 0
  else
    if s._cameraTriggerInTurnAroundFact then
      .ok (qCeil (s._complexDistance / triggerDistance))
    else
      if s._loadedMissionItemsParent then
        if s.hoverAndCaptureEnabled then
          .ok (s._loadedMissionItems.foldl
            (fun cameraShots missionItem =>
              cameraShots + (if missionItem.command = MAV_CMD_IMAGE_START_CAPTURE then 1 else 0))
            0)
        else
          .ok (s._loadedMissionItems.foldl (replayStep env triggerDistance)
            { waitingForTriggerStop := false
              distanceStartCoord := env.invalid
              distanceEndCoord := env.invalid
              cameraShots := 0 }).cameraShots
      else
        s._transects.foldlM (transectShotsStep env s) 0

/-- The method `_recalcCameraShots`. -/
def _recalcCameraShots {α C : Type} [LinearOrderedField α] [FloorRing α]
    (env : Env α C) (s : State α C) : Except Fault (State α C) := do
  let cameraShots ← recalcCameraShotsValue env s
  return { s with _cameraShots := cameraShots }

/-! ## Hover delay (lines 668-679) -/

/-- The method `additionalTimeDelay`. -/
def additionalTimeDelay {α C : Type} [LinearOrderedField α] (s : State α C) : α :=
  if s.hoverAndCaptureEnabled then
    s._transects.foldl
      (fun hoverTime transect => hoverTime + s._hoverAndCaptureDelaySeconds * (transect.length : α))
      0
  else 0

/-! ## Point access (lines 434-443) -/

/-- The method `_nextTransectCoord`: the returned flag and the value of `coord`
after the call. -/
def _nextTransectCoord {C : Type} (transectPoints : List C) (pointIndex : Int) (coord : C) :
    Except Fault (Bool × C) :=
  if pointIndex > (transectPoints.length : Int) then .ok (false, coord)
  else do
    let c ← qAtInt transectPoints pointIndex
    return (true, c)

/-! ## Loading (lines 167-354) -/

/-- What `_loadV4V5` reads from its JSON object: the outcomes of
`JsonHelper::validateKeys`, of the item type comparison, of
`_surveyAreaPolygon.loadFromJson` (`none` when it fails) and of
`TransectStyleComplexItem::_load`, and the values stored on success. -/
structure V4V5Json (α C : Type) where
  keysValid : Bool
  typeMatches : Bool
  polygon : Option (List C)
  baseLoads : Bool
  resolution : α
  flyAlternateTransects : Bool
  entryPoint : Int

/-- The method `_loadV4V5`: the returned flag and the state after the call.  The
version only selects the validated keys and the split-polygon fact; assignments
to members outside `State` are not represented. -/
def _loadV4V5 {α C : Type} (json : V4V5Json α C) (forPresets : Bool) (s : State α C) :
    Bool × State α C :=
  if !json.keysValid then (false, s)
  else if !json.typeMatches then (false, s)
  else
    let s : State α C := { s with _ignoreRecalc := !forPresets }
    let polygonStep : Bool × State α C :=
      if !forPresets then
        match json.polygon with
        | some vertices => (true, { s with _surveyAreaPolygon := vertices })
        | none => (false, { s with _surveyAreaPolygon := [] })
      else (true, s)
    if !polygonStep.1 then (false, polygonStep.2)
    else
      let s := polygonStep.2
      if !json.baseLoads then (false, { s with _ignoreRecalc := false })
      else
        (true,
          { s with
            _resolutionFact := json.resolution
            _flyAlternateTransectsFact := json.flyAlternateTransects
            _entryPoint := json.entryPoint
            _ignoreRecalc := false })

/-- The enumerant `EntryLocationTopRight` (the second of `EntryLocation`). -/
def EntryLocationTopRight : Int := 1

/-- What `_loadV3` reads from its JSON object: the outcomes of the three key
validations, of the item type comparison and of the polygon load, the presence
of the camera object, and the values stored. -/
structure V3Json (α C : Type) where
  mainKeysValid : Bool
  typeMatches : Bool
  hoverAndCapture : Bool
  refly90Degrees : Bool
  cameraTriggerInTurnaround : Bool
  manualGrid : Bool
  gridKeysValid : Bool
  resolution : α
  turnaroundDist : α
  entryPoint : Option Int
  cameraTriggerDistance : α
  hasCameraObject : Bool
  cameraKeysValid : Bool
  polygon : Option (List C)

/-- The method `_loadV3`: the returned flag and the state after the call.  The
hover-and-capture fact, the turnaround distance fact and the adjusted frontal
footprint of the camera calculator are the values behind
`hoverAndCaptureEnabled`, `_turnAroundDistance` and `triggerDistance`; the
other assignments to members outside `State` are not represented. -/
def _loadV3 {α C : Type} (json : V3Json α C) (s : State α C) : Bool × State α C :=
  if !json.mainKeysValid then (false, s)
  else if !json.typeMatches then (false, s)
  else
    let s : State α C :=
      { s with
        _ignoreRecalc := true
        hoverAndCaptureEnabled := json.hoverAndCapture
        _refly90DegreesFact := json.refly90Degrees
        _cameraTriggerInTurnAroundFact := json.cameraTriggerInTurnaround }
    if !json.gridKeysValid then (false, { s with _ignoreRecalc := false })
    else
      let s : State α C :=
        { s with
          _resolutionFact := json.resolution
          _turnAroundDistance := json.turnaroundDist
          _entryPoint :=
            match json.entryPoint with
            | some e => e
            | none => EntryLocationTopRight
          triggerDistance := json.cameraTriggerDistance }
      if !json.manualGrid && !json.hasCameraObject then
        (false, { s with _ignoreRecalc := false })
      else if !json.manualGrid && !json.cameraKeysValid then
        (false, { s with _ignoreRecalc := false })
      else
        match json.polygon with
        | none => (false, { s with _surveyAreaPolygon := [], _ignoreRecalc := false })
        | some vertices =>
          (true, { s with _surveyAreaPolygon := vertices, _ignoreRecalc := false })

/-! ## Specification-side descriptions -/

/-- The transects at the even positions `0, 2, 4, ...`, in their original order
(the wording of the specification). -/
def evenIndexed {β : Type} : List β → List β
  | [] => []
  | [x] => [x]
  | x :: _ :: rest => x :: evenIndexed rest

/-- The transects at the odd positions `1, 3, 5, ...`, in their original order
(the wording of the specification). -/
def oddIndexed {β : Type} : List β → List β
  | [] => []
  | [_] => []
  | _ :: y :: rest => y :: oddIndexed rest

/-- A transect of exactly two points. -/
def TwoPoint {C : Type} (t : List C) : Prop := ∃ a b : C, t = [a, b]

/-- Number of points of a tagged transect that carry the tag
`CoordTypeInteriorHoverTrigger`. -/
def hoverCount {C : Type} (ct : List (CoordInfo_t C)) : Nat :=
  ct.countP (fun p => decide (p.coordType = .CoordTypeInteriorHoverTrigger))

/-- Number of iterations of the hover loop for the transect from `a` to `b`. -/
def innerHoverPoints {α C : Type} [LinearOrderedField α] [FloorRing α]
    (env : Env α C) (s : State α C) (a b : C) : Nat :=
  if (s.triggerCamera && s.hoverAndCaptureEnabled) = true
      ∧ s.triggerDistance < env.distanceTo a b then
    (staticCastInt ⌊env.distanceTo a b / s.triggerDistance⌋).toNat
  else 0

/-- A tagged transect from `a` to `b` with `n` hover points: the entry point,
then the hover points at offsets `d, 2 * d, ..., n * d` from `a` along the
bearing from `a` to `b`, then the exit point. -/
def taggedTransect {α C : Type} [LinearOrderedField α] (env : Env α C) (d : α)
    (a b : C) (n : Nat) : List (CoordInfo_t C) :=
  { coord := a, coordType := .CoordTypeSurveyEntry } ::
    ((List.range n).map (hoverPoint env d a (env.azimuthTo a b)) ++
      [{ coord := b, coordType := .CoordTypeSurveyExit }])

/-- The segment invariant as the specification words it: entry first, exit last,
hover points in between at offsets `i * d` that increase strictly and lie
strictly between 0 and the transect length. -/
def SegmentInvariantStrict {α C : Type} [LinearOrderedField α] (env : Env α C) (d : α)
    (ct : List (CoordInfo_t C)) : Prop :=
  ∃ (a b : C) (n : Nat), ct = taggedTransect env d a b n
    ∧ (∀ i j : Nat, i < j → j < n → d * ((i : α) + 1) < d * ((j : α) + 1))
    ∧ ∀ i : Nat, i < n → 0 < d * ((i : α) + 1) ∧ d * ((i : α) + 1) < env.distanceTo a b

/-- The segment invariant with the last hover point allowed at the exit point:
offsets lie in `(0, L]`. -/
def SegmentInvariant {α C : Type} [LinearOrderedField α] (env : Env α C) (d : α)
    (ct : List (CoordInfo_t C)) : Prop :=
  ∃ (a b : C) (n : Nat), ct = taggedTransect env d a b n
    ∧ (∀ i j : Nat, i < j → j < n → d * ((i : α) + 1) < d * ((j : α) + 1))
    ∧ ∀ i : Nat, i < n → 0 < d * ((i : α) + 1) ∧ d * ((i : α) + 1) ≤ env.distanceTo a b

/-- The two points between which the shots of a transect are counted, in the
wording of the specification: the second and the second-to-last point when the
outer points are skipped, the first and the last point otherwise. -/
def cameraSpan {C : Type} (skipOuter : Bool) (t : List (CoordInfo_t C)) : Option (C × C) :=
  if skipOuter then
    match t[1]?, t.reverse[1]? with
    | some a, some b => some (a.coord, b.coord)
    | _, _ => none
  else
    match t.head?, t.getLast? with
    | some a, some b => some (a.coord, b.coord)
    | _, _ => none

/-- Shots of one transect: `ceil (dist (a, b) / triggerDistance)` over its
camera span; the outer points are skipped if a turnaround distance exists and
hover-and-capture is off. -/
def segmentShots {α C : Type} [LinearOrderedField α] [FloorRing α] (env : Env α C)
    (s : State α C) (t : List (CoordInfo_t C)) : Option Int :=
  (cameraSpan (decide (0 < s._turnAroundDistance) && !s.hoverAndCaptureEnabled) t).map
    (fun p => ⌈env.distanceTo p.1 p.2 / s.triggerDistance⌉)

/-- Sum of the shots of all transects, defined when every span exists. -/
def transectShotsSum {α C : Type} [LinearOrderedField α] [FloorRing α] (env : Env α C)
    (s : State α C) : List (List (CoordInfo_t C)) → Option Int
  | [] => some 0
  | t :: ts =>
    match segmentShots env s t, transectShotsSum env s ts with
    | some n, some m => some (n + m)
    | _, _ => none

/-- Total number of hover points of a list of tagged transects. -/
def hoverPointTotal {C : Type} (transects : List (List (CoordInfo_t C))) : Nat :=
  (transects.map hoverCount).sum

/-- Total number of points, of any tag, of a list of tagged transects. -/
def pointTotal {C : Type} (transects : List (List (CoordInfo_t C))) : Nat :=
  (transects.map List.length).sum

/-! ## A concrete geodesy for evaluation -/

/-- Points on a line (for instance longitudes along the equator), the distance
being the absolute difference and every bearing pointing in the positive
direction. -/
def lineEnv : Env ℚ ℚ where
  distanceTo := fun a b => |a - b|
  azimuthTo := fun _ _ => 0
  atDistanceAndAzimuth := fun a d _ => a + d
  convertNedToGeo := fun _ east _ origin => origin + east
  center := fun l => l.sum / l.length
  mkCoord := fun _ lon => lon
  invalid := 0
  cos := fun _ => 1
  sin := fun _ => 1
  pi := 3

/-- A state over `lineEnv`: a triangle-shaped polygon (three vertices), every
flag off, nothing generated or loaded yet. -/
def lineState : State ℚ ℚ where
  _ignoreRecalc := false
  _loadedMissionItemsParent := false
  _loadedMissionItems := []
  _surveyAreaPolygon := [0, 1, 2]
  _radiusFact := 1
  _resolutionFact := 1
  _distanceBetweenSpiralsFact := 6
  _flyAlternateTransectsFact := false
  _refly90DegreesFact := false
  _Rotate := false
  _entryPoint := 0
  _transects := []
  triggerCamera := false
  hoverAndCaptureEnabled := false
  triggerDistance := 5
  _turnAroundDistance := 0
  _cameraTriggerInTurnAroundFact := false
  _complexDistance := 0
  _cameraShots := 0
  _hoverAndCaptureDelaySeconds := 0

/-- The state `lineState` with a triggered camera, hover-and-capture on and a
trigger distance of one half. -/
def hoverState : State ℚ ℚ :=
  { lineState with
    triggerCamera := true
    hoverAndCaptureEnabled := true
    triggerDistance := 1 / 2 }

/-- The state `lineState` with a triggered camera, hover-and-capture on and a
trigger distance of `1 / 2^31`. -/
def overflowState : State ℚ ℚ :=
  { lineState with
    triggerCamera := true
    hoverAndCaptureEnabled := true
    triggerDistance := 1 / 2147483648 }

/-- The tagged transect the worker builds in `hoverState`: from 1 to 2 with
hover points at 3/2 and 2. -/
def hoverTransect : List (CoordInfo_t ℚ) :=
  [{ coord := 1, coordType := .CoordTypeSurveyEntry },
   { coord := 3 / 2, coordType := .CoordTypeInteriorHoverTrigger },
   { coord := 2, coordType := .CoordTypeInteriorHoverTrigger },
   { coord := 2, coordType := .CoordTypeSurveyExit }]

/-- The state `lineState` with the tagged transect `hoverTransect` generated and
a turnaround distance of 1. -/
def shotState : State ℚ ℚ :=
  { lineState with
    _transects := [hoverTransect]
    _turnAroundDistance := 1 }

/-- A waypoint command. -/
def isWaypoint {α : Type} (m : MissionItem α) : Bool :=
  decide (m.command = MAV_CMD_NAV_WAYPOINT)

/-- A trigger-start command: `DO_SET_CAM_TRIGG_DIST` with `param1 > 0`. -/
def isTriggerStart {α : Type} [LinearOrderedField α] (m : MissionItem α) : Bool :=
  decide (m.command = MAV_CMD_DO_SET_CAM_TRIGG_DIST) && decide (0 < m.param1)

/-- A trigger-stop command: `DO_SET_CAM_TRIGG_DIST` with `param1 <= 0`. -/
def isTriggerStop {α : Type} [LinearOrderedField α] (m : MissionItem α) : Bool :=
  decide (m.command = MAV_CMD_DO_SET_CAM_TRIGG_DIST) && decide (m.param1 ≤ 0)

/-- The position of the last waypoint of a command list, or the
default-constructed coordinate if the list has no waypoint. -/
def lastWaypointCoord {α C : Type} (env : Env α C) (items : List (MissionItem α)) : C :=
  match (items.filter isWaypoint).getLast? with
  | some w => env.mkCoord w.param5 w.param6
  | none => env.invalid

/-- Shots of one start/stop pair, given the commands `chunk` between the previous
trigger-stop (or the beginning) and this trigger-stop: `pairStart` is the last
waypoint of `chunk` before its first trigger-start, `pairEnd` the last waypoint
from that trigger-start on. -/
def pairShots {α C : Type} [LinearOrderedField α] [FloorRing α] (env : Env α C) (d : α)
    (chunk : List (MissionItem α)) : Int :=
  let pairStart := lastWaypointCoord env (chunk.takeWhile (fun m => !isTriggerStart m))
  let pairEnd := lastWaypointCoord env (chunk.dropWhile (fun m => !isTriggerStart m))
  ⌈env.distanceTo pairStart pairEnd / d⌉

/-- Sum of `pairShots` over every trigger-stop of the remaining commands;
`chunk` holds the commands since the previous trigger-stop. -/
def pairedShots {α C : Type} [LinearOrderedField α] [FloorRing α] (env : Env α C) (d : α) :
    List (MissionItem α) → List (MissionItem α) → Int
  | _, [] => 0
  | chunk, m :: rest =>
    if isTriggerStop m then pairShots env d chunk + pairedShots env d [] rest
    else pairedShots env d (chunk ++ [m]) rest

/-- Shots of one start/stop pair as the claim words it: `pairStart` is the last
waypoint seen before the matching trigger-start, wherever in the sequence
(`seen` holds the commands up to and including the previous trigger-stop). -/
def claimedPairShots {α C : Type} [LinearOrderedField α] [FloorRing α] (env : Env α C)
    (d : α) (seen chunk : List (MissionItem α)) : Int :=
  let pairStart :=
    lastWaypointCoord env (seen ++ chunk.takeWhile (fun m => !isTriggerStart m))
  let pairEnd := lastWaypointCoord env (chunk.dropWhile (fun m => !isTriggerStart m))
  ⌈env.distanceTo pairStart pairEnd / d⌉

/-- Sum of `claimedPairShots` over every trigger-stop of the remaining
commands. -/
def claimedShots {α C : Type} [LinearOrderedField α] [FloorRing α] (env : Env α C) (d : α) :
    List (MissionItem α) → List (MissionItem α) → List (MissionItem α) → Int
  | _, _, [] => 0
  | seen, chunk, m :: rest =>
    if isTriggerStop m then
      claimedPairShots env d seen chunk + claimedShots env d (seen ++ chunk ++ [m]) [] rest
    else claimedShots env d seen (chunk ++ [m]) rest

/-- The relation between the locals of the replay loop and the commands `chunk`
read since the previous trigger-stop. -/
def ReplayInv {α C : Type} [LinearOrderedField α] (env : Env α C)
    (chunk : List (MissionItem α)) (st : Replay C) : Prop :=
  st.waitingForTriggerStop = !(chunk.all (fun m => !isTriggerStart m))
    ∧ st.distanceStartCoord
        = lastWaypointCoord env (chunk.takeWhile (fun m => !isTriggerStart m))
    ∧ st.distanceEndCoord
        = lastWaypointCoord env (chunk.dropWhile (fun m => !isTriggerStart m))

/-- The line geodesy with an invalid coordinate (`none`), from and to which the
distance is 0, as `QGeoCoordinate::distanceTo` returns. -/
def lineEnvQt : Env ℚ (Option ℚ) where
  distanceTo := fun a b =>
    match a, b with
    | some x, some y => |x - y|
    | _, _ => 0
  azimuthTo := fun _ _ => 0
  atDistanceAndAzimuth := fun a d _ => a.map (fun x => x + d)
  convertNedToGeo := fun _ east _ origin => origin.map (fun x => x + east)
  center := fun l => l.head?.join
  mkCoord := fun _ lon => some lon
  invalid := none
  cos := fun _ => 1
  sin := fun _ => 1
  pi := 3

/-- A waypoint at longitude `lon`. -/
def waypointAt (lon : ℚ) : MissionItem ℚ :=
  { command := MAV_CMD_NAV_WAYPOINT, param1 := 0, param5 := 0, param6 := lon }

/-- A `DO_SET_CAM_TRIGG_DIST` command with distance `dist`. -/
def triggerDist (dist : ℚ) : MissionItem ℚ :=
  { command := MAV_CMD_DO_SET_CAM_TRIGG_DIST, param1 := dist, param5 := 0, param6 := 0 }

/-- Two start/stop pairs with no waypoint between the first stop and the second
start. -/
def replayItems : List (MissionItem ℚ) :=
  [waypointAt 0, triggerDist 1, waypointAt 3, triggerDist 0,
   triggerDist 1, waypointAt 5, triggerDist 0]

/-- A state with `replayItems` loaded, trigger distance 1, hover-and-capture and
`cameraTriggerInTurnaround` off. -/
def replayState : State ℚ (Option ℚ) where
  _ignoreRecalc := false
  _loadedMissionItemsParent := true
  _loadedMissionItems := replayItems
  _surveyAreaPolygon := [some 0, some 1, some 2]
  _radiusFact := 1
  _resolutionFact := 1
  _distanceBetweenSpiralsFact := 6
  _flyAlternateTransectsFact := false
  _refly90DegreesFact := false
  _Rotate := false
  _entryPoint := 0
  _transects := []
  triggerCamera := true
  hoverAndCaptureEnabled := false
  triggerDistance := 1
  _turnAroundDistance := 0
  _cameraTriggerInTurnAroundFact := false
  _complexDistance := 0
  _cameraShots := 0
  _hoverAndCaptureDelaySeconds := 0

/-- The state `hoverState` after the worker has run (`hoverTransect` appended),
with a hover delay of 4 seconds. -/
def delayState : State ℚ ℚ :=
  { hoverState with
    _transects := [hoverTransect]
    _hoverAndCaptureDelaySeconds := 4 }

/-- A version 4/5 JSON object that passes the key and type checks but whose
polygon does not load. -/
def badPolygonJson : V4V5Json ℚ ℚ where
  keysValid := true
  typeMatches := true
  polygon := none
  baseLoads := true
  resolution := 1
  flyAlternateTransects := false
  entryPoint := 0

/-- The state `lineState` with refly enabled. -/
def reflyState : State ℚ ℚ :=
  { lineState with _refly90DegreesFact := true }

/-! # Theorems -/

/-! ## Reversal loops are list reversal -/

theorem appendDownFrom_eq {β : Type} (xs : List β) :
    ∀ (i : Nat) (acc : List β), i ≤ xs.length →
      appendDownFrom xs i acc = acc ++ (xs.take i).reverse := by
  intro i
  induction i with
  | zero => intro acc _; simp [appendDownFrom]
  | succ i ih =>
    intro acc hi
    have hlt : i < xs.length := hi
    have hget : xs[i]? = some xs[i] := List.getElem?_eq_getElem hlt
    rw [appendDownFrom, hget, ih _ (Nat.le_of_lt hlt), List.take_succ, hget]
    simp only [Option.toList, List.reverse_append, List.reverse_cons, List.reverse_nil,
      List.nil_append, List.append_assoc, List.singleton_append]

theorem reverseTransectOrder_eq {C : Type} (transects : List (List C)) :
    _reverseTransectOrder transects = transects.reverse := by
  simp [_reverseTransectOrder, appendDownFrom_eq]

theorem reverseInternalTransectPoints_eq {C : Type} (transects : List (List C)) :
    _reverseInternalTransectPoints transects = transects.map List.reverse := by
  simp [_reverseInternalTransectPoints, appendDownFrom_eq]

/-! ## C1: shortest-distance optimisation -/

/-- The scan never selects candidate 3: its index stops at 2. -/
theorem shortestIndex_le_two {α : Type} [LinearOrder α] (d0 d1 d2 d3 : α) :
    shortestIndex d0 d1 d2 d3 ≤ 2 := by
  simp only [shortestIndex, List.range', List.foldl, scanStep]
  split_ifs <;> simp

/-- C1 (evaluation at the failing input): with the anchor at 0 and the transects
`[[3, 4], [2, 1]]` on a line, the last point of the last transect is strictly
the nearest of the four candidates (distance 1), yet the function only reverses
the transect order and returns `[[2, 1], [3, 4]]`, whose first point is at
distance 2; reversing both orders, as candidate 3 requires, would give
`[[1, 2], [4, 3]]`. -/
theorem optimize_misses_last_candidate :
    _optimizeTransectsForShortestDistance lineEnv 0 [[3, 4], [2, 1]]
        = .ok [[2, 1], [3, 4]]
      ∧ lineEnv.distanceTo 1 0 < lineEnv.distanceTo 3 0
      ∧ lineEnv.distanceTo 1 0 < lineEnv.distanceTo 4 0
      ∧ lineEnv.distanceTo 1 0 < lineEnv.distanceTo 2 0
      ∧ lineEnv.distanceTo 2 0 ≠ min (min (lineEnv.distanceTo 3 0) (lineEnv.distanceTo 4 0))
          (min (lineEnv.distanceTo 2 0) (lineEnv.distanceTo 1 0))
      ∧ ([[2, 1], [3, 4]] : List (List ℚ)) ≠ ([[3, 4], [2, 1]].reverse).map List.reverse := by
  refine ⟨?_, ?_, ?_, ?_, ?_, ?_⟩
  · simp [_optimizeTransectsForShortestDistance, qFirst, qLast, lineEnv, shortestIndex,
      scanStep, List.range', _reverseTransectOrder, appendDownFrom, bind, Except.bind, pure,
      Except.pure]
    norm_num
  · norm_num [lineEnv]
  · norm_num [lineEnv]
  · norm_num [lineEnv]
  · norm_num [lineEnv]
  · simp

/-! ## C2: radius of the emitted samples -/

/-- The points emitted with `mkPoint` post-composed by `f` are the images under
`f` of the points emitted with `mkPoint`: the emitted coordinates are the
images of the emitted samples. -/
theorem spiralLoop_map {α P Q : Type} [LinearOrderedField α] (f : P → Q)
    (mkPoint : α → α → P) (pi radius dbs inc : α) :
    ∀ (fuel : Nat) (ang : α),
      spiralLoop (fun r a => f (mkPoint r a)) pi radius dbs inc fuel ang
        = (spiralLoop mkPoint pi radius dbs inc fuel ang).map (List.map (List.map f)) := by
  intro fuel
  induction fuel with
  | zero => intro ang; simp [spiralLoop, Except.map]
  | succ fuel ih =>
    intro ang
    simp only [spiralLoop]
    split_ifs with h
    · simp [Except.map]
    · rw [ih]
      cases spiralLoop mkPoint pi radius dbs inc fuel (ang + inc + inc) <;> simp [Except.map]

/-- If the entry samples of iterations `0 .. n-1` are inside the circle and that
of iteration `n` is outside, the loop stops after `n` segments, given fuel for
`n + 1` tests. -/
theorem spiralLoop_eq_range {α P : Type} [LinearOrderedField α] (mkPoint : α → α → P)
    (pi radius dbs inc : α) :
    ∀ (n fuel : Nat) (a0 : α), n < fuel →
      (∀ k, k < n → dbs * (a0 + 2 * k * inc) / (2 * pi) ≤ radius) →
      radius < dbs * (a0 + 2 * n * inc) / (2 * pi) →
      spiralLoop mkPoint pi radius dbs inc fuel a0
        = .ok ((List.range n).map (spiralSegment mkPoint pi dbs inc a0)) := by
  intro n
  induction n with
  | zero =>
    intro fuel a0 hf _ hout
    obtain ⟨fuel, rfl⟩ : ∃ m, fuel = m + 1 := ⟨fuel - 1, by omega⟩
    have : radius < dbs * a0 / (2 * pi) := by simpa using hout
    simp [spiralLoop, this]
  | succ n ih =>
    intro fuel a0 hf hin hout
    obtain ⟨fuel, rfl⟩ : ∃ m, fuel = m + 1 := ⟨fuel - 1, by omega⟩
    have h0 : ¬ radius < dbs * a0 / (2 * pi) := by
      have := hin 0 (Nat.succ_pos n)
      simpa using this
    have hrec := ih fuel (a0 + inc + inc) (by omega)
      (fun k hk => by
        have := hin (k + 1) (by omega)
        have e : a0 + inc + inc + 2 * (k : α) * inc = a0 + 2 * ((k + 1 : ℕ) : α) * inc := by
          push_cast; ring
        rw [e]; exact this)
      (by
        have e : a0 + inc + inc + 2 * (n : α) * inc = a0 + 2 * ((n + 1 : ℕ) : α) * inc := by
          push_cast; ring
        rw [e]; exact hout)
    simp only [spiralLoop, gt_iff_lt, h0, if_false, hrec]
    rw [List.range_succ_eq_map, List.map_cons, List.map_map]
    congr 2
    · simp [spiralSegment]
    · apply List.map_congr_left
      intro k _
      simp only [spiralSegment, Function.comp, Nat.succ_eq_add_one]
      have e1 : a0 + inc + inc + 2 * (k : α) * inc = a0 + 2 * ((k + 1 : ℕ) : α) * inc := by
        push_cast; ring
      have e2 : a0 + inc + inc + (2 * (k : α) + 1) * inc
          = a0 + (2 * ((k + 1 : ℕ) : α) + 1) * inc := by
        push_cast; ring
      rw [e1, e2]

/-- C2 (amended): for positive `pi` and resolution (and any spacing), every segment the
generator emits is a pair of samples whose recorded radius is
`spacing * angle / (2 * pi)`; the entry sample has radius at most `radius` and
the exit sample, one angle step further, has radius at most
`radius + spacing / (2 * pi * resolution)`. -/
theorem spiral_entry_within_radius {α : Type} [LinearOrderedField α]
    (pi radius resolution dbs : α) (hpi : 0 < pi) (hres : 0 < resolution)
    (fuel : Nat) (a0 : α) (segs : List (List (Sample α)))
    (hrun : spiralLoop Sample.mk pi radius dbs (1 / resolution) fuel a0 = .ok segs)
    (seg : List (Sample α)) (hseg : seg ∈ segs) :
    ∃ e x : Sample α, seg = [e, x]
      ∧ e.r = dbs * e.ang / (2 * pi) ∧ x.r = dbs * x.ang / (2 * pi)
      ∧ x.ang = e.ang + 1 / resolution
      ∧ e.r ≤ radius ∧ x.r ≤ radius + dbs / (2 * pi * resolution) := by
  induction fuel generalizing a0 segs with
  | zero => simp [spiralLoop] at hrun
  | succ fuel ih =>
    simp only [spiralLoop] at hrun
    split_ifs at hrun with h
    · cases hrun; simp at hseg
    · cases hrest : spiralLoop Sample.mk pi radius dbs (1 / resolution) fuel
          (a0 + 1 / resolution + 1 / resolution) with
      | error e => rw [hrest] at hrun; cases hrun
      | ok rest =>
        rw [hrest] at hrun
        cases hrun
        rcases List.mem_cons.mp hseg with rfl | hmem
        · refine ⟨_, _, rfl, rfl, rfl, rfl, not_lt.mp h, ?_⟩
          have h1 : dbs * a0 / (2 * pi) ≤ radius := not_lt.mp h
          have e : dbs * (a0 + 1 / resolution) / (2 * pi)
              = dbs * a0 / (2 * pi) + dbs / (2 * pi * resolution) := by
            field_simp
            ring
          show dbs * (a0 + 1 / resolution) / (2 * pi) ≤ _
          rw [e]
          linarith
        · exact ih _ _ hrest hmem

/-- C2 (witness): with `pi = 3`, radius 1, resolution 1 and spacing 6 the
generator emits the single segment from the sample at angle 0 to that at
angle 1. -/
theorem spiral_entry_within_radius_witness :
    ∃ e x : Sample ℚ, [Sample.mk 0 0, Sample.mk 1 1] = [e, x]
      ∧ e.r = 6 * e.ang / (2 * 3) ∧ x.r = 6 * x.ang / (2 * 3)
      ∧ x.ang = e.ang + 1 / 1
      ∧ e.r ≤ 1 ∧ x.r ≤ 1 + 6 / (2 * 3 * 1) :=
  spiral_entry_within_radius (3 : ℚ) 1 1 6 (by norm_num) (by norm_num) 2 0
    [[Sample.mk 0 0, Sample.mk 1 1]] (by norm_num [spiralLoop]) _ (by simp)

/-- C2 (counterexample): over the reals, with radius 100, resolution 10 and
spacing 20, the generator stops after 158 segments and the exit sample of the
last one, at angle 31.5, has implied radius `20 * 31.5 / (2 * π) > 100`. -/
theorem spiral_exit_exceeds_radius :
    ∃ (segs : List (List (Sample ℝ))) (e x : Sample ℝ),
      spiralLoop Sample.mk Real.pi (100 : ℝ) 20 (1 / 10) 200 0 = .ok segs
        ∧ segs.length = 158
        ∧ segs.getLast? = some [e, x]
        ∧ x.ang = 63 / 2
        ∧ x.r = 20 * x.ang / (2 * Real.pi)
        ∧ 100 < x.r := by
  have hpi := Real.pi_pos
  have hlo := Real.pi_gt_d2
  have hhi := Real.pi_lt_d2
  have hrun := spiralLoop_eq_range (Sample.mk : ℝ → ℝ → Sample ℝ) Real.pi 100 20 (1 / 10)
    158 200 0 (by norm_num)
    (fun k hk => by
      rw [div_le_iff₀ (by positivity)]
      have hk' : (k : ℝ) ≤ 157 := by exact_mod_cast Nat.lt_succ_iff.mp hk
      nlinarith)
    (by
      rw [lt_div_iff₀ (by positivity)]
      push_cast
      nlinarith)
  refine ⟨_,
    Sample.mk (20 * (0 + 2 * ((157 : ℕ) : ℝ) * (1 / 10)) / (2 * Real.pi))
      (0 + 2 * ((157 : ℕ) : ℝ) * (1 / 10)),
    Sample.mk (20 * (0 + (2 * ((157 : ℕ) : ℝ) + 1) * (1 / 10)) / (2 * Real.pi))
      (0 + (2 * ((157 : ℕ) : ℝ) + 1) * (1 / 10)),
    hrun, by simp, ?_, ?_, rfl, ?_⟩
  · rw [show (158 : ℕ) = 157 + 1 from rfl, List.range_succ, List.map_append]
    simp [spiralSegment]
  · norm_num
  · show (100 : ℝ) < 20 * (0 + (2 * ((157 : ℕ) : ℝ) + 1) * (1 / 10)) / (2 * Real.pi)
    rw [lt_div_iff₀ (by positivity)]
    push_cast
    nlinarith

/-! ## C3: alternate transects -/

theorem range_add_two (n : Nat) :
    List.range (n + 2) = 0 :: 1 :: (List.range n).map (fun k => k + 2) := by
  rw [List.range_succ_eq_map, List.range_succ_eq_map]
  simp [List.map_map, Function.comp]

theorem evenIndexed_getElem? {β : Type} :
    ∀ (xs : List β) (j : Nat), (evenIndexed xs)[j]? = xs[2 * j]?
  | [], j => by simp [evenIndexed]
  | [x], j => by
    cases j with
    | zero => simp [evenIndexed]
    | succ j => simp [evenIndexed, Nat.mul_succ]
  | x :: y :: rest, j => by
    cases j with
    | zero => simp [evenIndexed]
    | succ j => simp [evenIndexed, Nat.mul_succ, evenIndexed_getElem? rest j]

theorem oddIndexed_getElem? {β : Type} :
    ∀ (xs : List β) (j : Nat), (oddIndexed xs)[j]? = xs[2 * j + 1]?
  | [], j => by simp [oddIndexed]
  | [x], j => by simp [oddIndexed]
  | x :: y :: rest, j => by
    cases j with
    | zero => simp [oddIndexed]
    | succ j => simp [oddIndexed, Nat.mul_succ, oddIndexed_getElem? rest j]

theorem filterMap_even_range {β : Type} :
    ∀ xs : List β,
      ((List.range xs.length).filter (fun i => decide (i % 2 = 0))).filterMap (fun i => xs[i]?)
        = evenIndexed xs
  | [] => by simp [evenIndexed]
  | [x] => by simp [evenIndexed, List.range_succ]
  | x :: y :: rest => by
    have ih := filterMap_even_range rest
    simp only [List.length_cons, range_add_two, evenIndexed]
    simp only [List.filter_cons, List.filter_map, List.filterMap_map, List.filterMap_cons]
    simp [Function.comp, Nat.add_mod, ih]
    rw [← ih]
    congr 1
    · funext k
      simp
    · congr 1
      funext k
      simp [Nat.add_mod]

theorem filterMap_odd_range {β : Type} :
    ∀ xs : List β,
      ((List.range xs.length).filter (fun i => decide (i % 2 ≠ 0))).filterMap (fun i => xs[i]?)
        = oddIndexed xs
  | [] => by simp [oddIndexed]
  | [x] => by simp [oddIndexed, List.range_succ]
  | x :: y :: rest => by
    have ih := filterMap_odd_range rest
    simp only [List.length_cons, range_add_two, oddIndexed]
    simp only [List.filter_cons, List.filter_map, List.filterMap_map, List.filterMap_cons]
    simp [Function.comp, Nat.add_mod, ih]
    rw [← ih]
    congr 1
    · funext k
      simp
    · congr 1
      funext k
      simp [Nat.add_mod]

theorem appendEvenUp_eq {β : Type} (xs : List β) : appendEvenUp xs = evenIndexed xs := by
  have key : ∀ n : Nat,
      (List.range n).foldl (fun acc i =>
        if i % 2 = 0 then
          (match xs[i]? with
            | some x => acc ++ [x]
            | none => acc)
        else acc) []
      = ((List.range n).filter (fun i => decide (i % 2 = 0))).filterMap (fun i => xs[i]?) := by
    intro n
    induction n with
    | zero => simp
    | succ n ih =>
      rw [List.range_succ, List.foldl_append, ih, List.filter_append, List.filterMap_append]
      by_cases hn : n % 2 = 0
      · cases hx : xs[n]? <;> simp [hn, hx]
      · simp [hn]
  rw [appendEvenUp, key, filterMap_even_range]

theorem appendOddDownFrom_eq {β : Type} (xs : List β) :
    ∀ (i : Nat) (acc : List β),
      appendOddDownFrom xs i acc
        = acc ++ (((List.range i).filter (fun i => decide (i % 2 ≠ 0))).filterMap
            (fun i => xs[i]?)).reverse := by
  intro i
  induction i with
  | zero => intro acc; simp [appendOddDownFrom]
  | succ i ih =>
    intro acc
    rw [appendOddDownFrom, ih, List.range_succ, List.filter_append, List.filterMap_append,
      List.reverse_append]
    by_cases hi : i % 2 = 0
    · simp [hi]
    · have hi' : i % 2 = 1 := by omega
      cases hx : xs[i]? <;> simp [hi, hi', hx, List.filter_cons]

theorem alternatingTransects_eq {β : Type} (transects : List β) :
    alternatingTransects transects
      = evenIndexed transects ++ (oddIndexed transects).reverse := by
  rw [alternatingTransects, appendOddDownFrom_eq, appendEvenUp_eq, filterMap_odd_range]

theorem evenIndexed_append_oddIndexed_perm {β : Type} :
    ∀ xs : List β, (evenIndexed xs ++ oddIndexed xs).Perm xs
  | [] => by simp [evenIndexed, oddIndexed]
  | [x] => by simp [evenIndexed, oddIndexed]
  | x :: y :: rest => by
    have ih := evenIndexed_append_oddIndexed_perm rest
    simp only [evenIndexed, oddIndexed, List.cons_append]
    exact (List.perm_middle.trans (List.Perm.cons y ih)).cons x |>.trans (List.Perm.refl _)

/-- C3: with `flyAlternateTransects` set the list flown is the even-indexed
transects in their original order followed by the odd-indexed transects in
reverse order, where position `j` of the even (odd) part holds transect `2 * j`
(`2 * j + 1`); it has the length of the input and is a permutation of it.  With
the flag clear the list is unchanged. -/
theorem applyAlternate_spec {β : Type} (t : List β) :
    applyAlternate true t = evenIndexed t ++ (oddIndexed t).reverse
      ∧ (∀ j, (evenIndexed t)[j]? = t[2 * j]?)
      ∧ (∀ j, (oddIndexed t)[j]? = t[2 * j + 1]?)
      ∧ (applyAlternate true t).length = t.length
      ∧ (applyAlternate true t).Perm t
      ∧ applyAlternate false t = t := by
  have hperm : (evenIndexed t ++ (oddIndexed t).reverse).Perm t :=
    (List.Perm.append_left _ (List.reverse_perm _)).trans
      (evenIndexed_append_oddIndexed_perm t)
  have heq : applyAlternate true t = evenIndexed t ++ (oddIndexed t).reverse := by
    simp [applyAlternate, alternatingTransects_eq]
  refine ⟨heq, evenIndexed_getElem? t, oddIndexed_getElem? t, ?_, ?_, ?_⟩
  · rw [heq]; exact hperm.length_eq
  · rw [heq]; exact hperm
  · simp [applyAlternate]

/-! ## C4: entry point rotation -/

/-- C4: with the rotation flag set the function returns the transects of the
unrotated result in reverse order, each with its points reversed, so that the
flattened point sequence is the reverse of the unrotated one; with the flag
clear, or on the empty list, it returns its argument; the value of `_entryPoint`
has no influence. -/
theorem adjustTransectsToEntryPointLocation_spec {α C : Type} (s : State α C)
    (t : List (List C)) :
    _adjustTransectsToEntryPointLocation { s with _Rotate := true } t
        = ((_adjustTransectsToEntryPointLocation { s with _Rotate := false } t).reverse).map
            List.reverse
      ∧ (_adjustTransectsToEntryPointLocation { s with _Rotate := true } t).flatten
        = (_adjustTransectsToEntryPointLocation { s with _Rotate := false } t).flatten.reverse
      ∧ _adjustTransectsToEntryPointLocation { s with _Rotate := false } t = t
      ∧ _adjustTransectsToEntryPointLocation s [] = []
      ∧ ∀ e : Int, _adjustTransectsToEntryPointLocation { s with _entryPoint := e } t
          = _adjustTransectsToEntryPointLocation s t := by
  have hoff : _adjustTransectsToEntryPointLocation { s with _Rotate := false } t = t := by
    simp [_adjustTransectsToEntryPointLocation]
  have hon : _adjustTransectsToEntryPointLocation { s with _Rotate := true } t
      = (t.reverse).map List.reverse := by
    cases t with
    | nil => simp [_adjustTransectsToEntryPointLocation]
    | cons x xs =>
      simp [_adjustTransectsToEntryPointLocation, reverseTransectOrder_eq,
        reverseInternalTransectPoints_eq, List.map_reverse]
  refine ⟨by rw [hon, hoff], ?_, hoff, by simp [_adjustTransectsToEntryPointLocation], ?_⟩
  · rw [hon, hoff, List.reverse_flatten, List.map_reverse]
  · intro e
    simp [_adjustTransectsToEntryPointLocation]

/-! ## C5, C6: hover points -/

theorem insertIdx_length_append {β : Type} (b : β) (R : List β) :
    ∀ L : List β, (L ++ R).insertIdx L.length b = L ++ b :: R
  | [] => by simp
  | x :: L => by simp [List.insertIdx_succ_cons, insertIdx_length_append b R L]

theorem hoverLoop_eq {β : Type} (h : Nat → β) (e x : β) :
    ∀ n : Nat, (List.range n).foldl (fun acc i => acc.insertIdx (1 + i) (h i)) [e, x]
      = e :: ((List.range n).map h ++ [x]) := by
  intro n
  induction n with
  | zero => simp
  | succ n ih =>
    rw [List.range_succ, List.foldl_append, ih]
    simp only [List.foldl_cons, List.foldl_nil, List.map_append, List.map_cons, List.map_nil]
    rw [Nat.add_comm 1 n, List.insertIdx_succ_cons]
    have := insertIdx_length_append (h n) [x] ((List.range n).map h)
    simp only [List.length_map, List.length_range] at this
    rw [this]
    simp

/-- The tagged transect built for a two-point transect. -/
theorem coordInfoTransect_pair {α C : Type} [LinearOrderedField α] [FloorRing α]
    (env : Env α C) (s : State α C) (a b : C) :
    coordInfoTransect env s [a, b]
      = .ok (taggedTransect env s.triggerDistance a b (innerHoverPoints env s a b)) := by
  unfold coordInfoTransect innerHoverPoints taggedTransect
  simp only [qAt, List.getElem?_cons_zero, List.getElem?_cons_succ, bind, Except.bind, pure,
    Except.pure]
  by_cases hc : (s.triggerCamera && s.hoverAndCaptureEnabled) = true
  · by_cases hl : s.triggerDistance < env.distanceTo a b
    · simp only [hc, hl, if_true, and_self]
      rw [hoverLoop_eq]
    · simp [hc, hl]
  · simp [hc]

theorem hoverCount_taggedTransect {α C : Type} [LinearOrderedField α] (env : Env α C)
    (d : α) (a b : C) (n : Nat) : hoverCount (taggedTransect env d a b n) = n := by
  simp only [hoverCount, taggedTransect, List.countP_cons, List.countP_append,
    List.countP_map, List.countP_nil]
  rw [List.countP_eq_length.mpr]
  · simp
  · intro i _
    simp [hoverPoint]

theorem staticCastInt_of_range {z : Int} (h0 : 0 ≤ z) (h1 : z ≤ 2147483647) :
    staticCastInt z = z := by
  unfold staticCastInt
  rw [if_pos ⟨by omega, h1⟩]

theorem staticCastInt_toNat_le (z : Int) : ((staticCastInt z).toNat : Int) ≤ max z 0 := by
  unfold staticCastInt
  split_ifs with h
  · omega
  · have : (-2147483648 : Int).toNat = 0 := rfl
    rw [this]
    exact le_max_right _ _

/-- C5 (amended): for a two-point transect of length `L` and a trigger distance
`d > 0`, the tagged transect built for it holds exactly `floor (L / d)` hover
points when the camera is triggered, hover-and-capture is on, `d < L` and
`floor (L / d)` fits the 32-bit `int` in which the source keeps the count; it
holds none when `d ≥ L`, and none when the camera is not triggered or
hover-and-capture is off. -/
theorem hover_point_count {α C : Type} [LinearOrderedField α] [FloorRing α]
    (env : Env α C) (s : State α C) (a b : C) (hd : 0 < s.triggerDistance) :
    ∃ ct, coordInfoTransect env s [a, b] = .ok ct
      ∧ ((s.triggerCamera = true ∧ s.hoverAndCaptureEnabled = true) →
          (s.triggerDistance < env.distanceTo a b →
            ⌊env.distanceTo a b / s.triggerDistance⌋ ≤ 2147483647 →
            (hoverCount ct : Int) = ⌊env.distanceTo a b / s.triggerDistance⌋)
          ∧ (env.distanceTo a b ≤ s.triggerDistance → hoverCount ct = 0))
      ∧ (¬ (s.triggerCamera = true ∧ s.hoverAndCaptureEnabled = true) → hoverCount ct = 0) := by
  refine ⟨_, coordInfoTransect_pair env s a b, ?_, ?_⟩
  · rintro ⟨hc, hh⟩
    rw [hoverCount_taggedTransect]
    constructor
    · intro hl hfit
      have hq : 0 ≤ env.distanceTo a b / s.triggerDistance :=
        div_nonneg (le_of_lt (lt_trans hd hl)) (le_of_lt hd)
      have hfloor : 0 ≤ ⌊env.distanceTo a b / s.triggerDistance⌋ := Int.floor_nonneg.mpr hq
      simp only [innerHoverPoints, hc, hh, hl, Bool.and_self, and_self, if_true]
      rw [staticCastInt_of_range hfloor hfit]
      exact Int.toNat_of_nonneg hfloor
    · intro hl
      simp [innerHoverPoints, not_lt.mpr hl]
  · intro hc
    rw [hoverCount_taggedTransect]
    have : ¬ ((s.triggerCamera && s.hoverAndCaptureEnabled) = true) := by
      simpa [Bool.and_eq_true] using hc
    simp [innerHoverPoints, this]

/-! ### Every transect that reaches the conversion loop has two points -/

theorem spiralLoop_twoPoint {α P : Type} [LinearOrderedField α] (mkPoint : α → α → P)
    (pi radius dbs inc : α) :
    ∀ (fuel : Nat) (ang : α) (segs : List (List P)),
      spiralLoop mkPoint pi radius dbs inc fuel ang = .ok segs →
      ∀ seg ∈ segs, TwoPoint seg := by
  intro fuel
  induction fuel with
  | zero => intro ang segs h; simp [spiralLoop] at h
  | succ fuel ih =>
    intro ang segs h
    simp only [spiralLoop] at h
    split_ifs at h with hr
    · cases h; simp
    · cases hrest : spiralLoop mkPoint pi radius dbs inc fuel (ang + inc + inc) with
      | error e => rw [hrest] at h; cases h
      | ok rest =>
        rw [hrest] at h
        cases h
        intro seg hseg
        rcases List.mem_cons.mp hseg with rfl | hmem
        · exact ⟨_, _, rfl⟩
        · exact ih _ _ hrest seg hmem

theorem twoPoint_reverse {C : Type} {t : List C} (h : TwoPoint t) : TwoPoint t.reverse := by
  obtain ⟨a, b, rfl⟩ := h
  exact ⟨b, a, rfl⟩

theorem twoPoint_reverseTransectOrder {C : Type} {t : List (List C)}
    (h : ∀ x ∈ t, TwoPoint x) : ∀ x ∈ _reverseTransectOrder t, TwoPoint x := by
  intro x hx
  rw [reverseTransectOrder_eq] at hx
  exact h x (List.mem_reverse.mp hx)

theorem twoPoint_reverseInternalTransectPoints {C : Type} {t : List (List C)}
    (h : ∀ x ∈ t, TwoPoint x) : ∀ x ∈ _reverseInternalTransectPoints t, TwoPoint x := by
  intro x hx
  rw [reverseInternalTransectPoints_eq] at hx
  obtain ⟨y, hy, rfl⟩ := List.mem_map.mp hx
  exact twoPoint_reverse (h y hy)

theorem twoPoint_adjust {α C : Type} (s : State α C) {t : List (List C)}
    (h : ∀ x ∈ t, TwoPoint x) :
    ∀ x ∈ _adjustTransectsToEntryPointLocation s t, TwoPoint x := by
  unfold _adjustTransectsToEntryPointLocation
  split_ifs
  · exact h
  · exact twoPoint_reverseTransectOrder (twoPoint_reverseInternalTransectPoints h)
  · exact h

theorem twoPoint_optimize {α C : Type} [LinearOrder α] (env : Env α C) (c : C)
    {t t' : List (List C)} (h : ∀ x ∈ t, TwoPoint x)
    (hrun : _optimizeTransectsForShortestDistance env c t = .ok t') :
    ∀ x ∈ t', TwoPoint x := by
  unfold _optimizeTransectsForShortestDistance at hrun
  simp only [bind, Except.bind, pure, Except.pure] at hrun
  cases h1 : qFirst t with
  | error e => simp [h1] at hrun
  | ok tFirst =>
    cases h2 : qLast t with
    | error e => simp [h1, h2] at hrun
    | ok tLast =>
      cases h3 : qFirst tFirst with
      | error e => simp [h1, h2, h3] at hrun
      | ok p0 =>
        cases h4 : qLast tFirst with
        | error e => simp [h1, h2, h3, h4] at hrun
        | ok p1 =>
          cases h5 : qFirst tLast with
          | error e => simp [h1, h2, h3, h4, h5] at hrun
          | ok p2 =>
            cases h6 : qLast tLast with
            | error e => simp [h1, h2, h3, h4, h5, h6] at hrun
            | ok p3 =>
              simp only [h1, h2, h3, h4, h5, h6] at hrun
              injection hrun with hrun
              subst hrun
              split_ifs
              · exact twoPoint_reverseInternalTransectPoints (twoPoint_reverseTransectOrder h)
              · exact twoPoint_reverseInternalTransectPoints h
              · exact twoPoint_reverseTransectOrder h
              · exact h

theorem alternatingTransects_perm {β : Type} (t : List β) :
    (alternatingTransects t).Perm t := by
  rw [alternatingTransects_eq]
  exact (List.Perm.append_left _ (List.reverse_perm _)).trans
    (evenIndexed_append_oddIndexed_perm t)

theorem twoPoint_applyAlternate {C : Type} (flag : Bool) {t : List (List C)}
    (h : ∀ x ∈ t, TwoPoint x) : ∀ x ∈ applyAlternate flag t, TwoPoint x := by
  intro x hx
  cases flag with
  | false => exact h x (by simpa [applyAlternate] using hx)
  | true =>
    have hx' : x ∈ alternatingTransects t := by simpa [applyAlternate] using hx
    exact h x ((alternatingTransects_perm t).mem_iff.mp hx')

/-- On two-point transects the conversion loop does not fault, and what it
appends to `_transects` is, for each transect `[a, b]`, the tagged transect with
the hover points of that transect. -/
theorem appendCoordInfoTransects_twoPoint {α C : Type} [LinearOrderedField α] [FloorRing α]
    (env : Env α C) (s : State α C) :
    ∀ (ts : List (List C)) (acc : List (List (CoordInfo_t C))),
      (∀ t ∈ ts, TwoPoint t) →
      ∃ appended, appendCoordInfoTransects env s ts acc = .ok (acc ++ appended)
        ∧ appended.length = ts.length
        ∧ ∀ ct ∈ appended, ∃ a b : C, [a, b] ∈ ts
            ∧ ct = taggedTransect env s.triggerDistance a b (innerHoverPoints env s a b) := by
  intro ts
  induction ts with
  | nil => intro acc _; exact ⟨[], by simp [appendCoordInfoTransects], rfl, by simp⟩
  | cons t ts ih =>
    intro acc h
    obtain ⟨a, b, rfl⟩ := h t (List.mem_cons_self _ _)
    obtain ⟨app, hrun, hlen, hall⟩ := ih (acc ++ [taggedTransect env s.triggerDistance a b
      (innerHoverPoints env s a b)]) (fun t ht => h t (List.mem_cons_of_mem _ ht))
    refine ⟨taggedTransect env s.triggerDistance a b (innerHoverPoints env s a b) :: app,
      ?_, by simp [hlen], ?_⟩
    · simp only [appendCoordInfoTransects, coordInfoTransect_pair]
      rw [hrun]
      simp
    · intro ct hct
      rcases List.mem_cons.mp hct with rfl | hmem
      · exact ⟨a, b, List.mem_cons_self _ _, rfl⟩
      · obtain ⟨a', b', hmem', heq⟩ := hall ct hmem
        exact ⟨a', b', List.mem_cons_of_mem _ hmem', heq⟩

/-- The hover points of a transect lie at offsets in `(0, L]` that increase
strictly, when the trigger distance is positive. -/
theorem segmentInvariant_taggedTransect {α C : Type} [LinearOrderedField α] [FloorRing α]
    (env : Env α C) (s : State α C) (a b : C) (hd : 0 < s.triggerDistance) :
    SegmentInvariant env s.triggerDistance
      (taggedTransect env s.triggerDistance a b (innerHoverPoints env s a b)) := by
  refine ⟨a, b, _, rfl, ?_, ?_⟩
  · intro i j hij _
    have : (i : α) < (j : α) := by exact_mod_cast hij
    exact mul_lt_mul_of_pos_left (by linarith) hd
  · intro i hi
    have hpos : (0 : α) < (i : α) + 1 := by positivity
    refine ⟨mul_pos hd hpos, ?_⟩
    unfold innerHoverPoints at hi
    split_ifs at hi with hc
    · have hle : ((i + 1 : ℕ) : ℤ) ≤ ⌊env.distanceTo a b / s.triggerDistance⌋ := by
        have hcast := staticCastInt_toNat_le ⌊env.distanceTo a b / s.triggerDistance⌋
        have hi' : ((i + 1 : ℕ) : ℤ)
            ≤ ((staticCastInt ⌊env.distanceTo a b / s.triggerDistance⌋).toNat : ℤ) := by
          exact_mod_cast hi
        rcases le_max_iff.mp (le_trans hi' hcast) with h | h
        · exact h
        · omega
      have h2 : (((i + 1 : ℕ) : ℤ) : α) ≤ env.distanceTo a b / s.triggerDistance :=
        Int.le_floor.mp hle
      rw [le_div_iff₀ hd] at h2
      push_cast at h2
      linarith
    · exact absurd hi (Nat.not_lt_zero _)


/-! ### Shape of a run of the worker -/

@[simp] theorem clearLoadedMissionItems_transects {α C : Type} (s : State α C) :
    (clearLoadedMissionItems s)._transects = s._transects := by
  unfold clearLoadedMissionItems; split_ifs <;> rfl

@[simp] theorem clearLoadedMissionItems_triggerDistance {α C : Type} (s : State α C) :
    (clearLoadedMissionItems s).triggerDistance = s.triggerDistance := by
  unfold clearLoadedMissionItems; split_ifs <;> rfl

@[simp] theorem clearLoadedMissionItems_polygon {α C : Type} (s : State α C) :
    (clearLoadedMissionItems s)._surveyAreaPolygon = s._surveyAreaPolygon := by
  unfold clearLoadedMissionItems; split_ifs <;> rfl

@[simp] theorem clearLoadedMissionItems_radius {α C : Type} (s : State α C) :
    (clearLoadedMissionItems s)._radiusFact = s._radiusFact := by
  unfold clearLoadedMissionItems; split_ifs <;> rfl

@[simp] theorem clearLoadedMissionItems_resolution {α C : Type} (s : State α C) :
    (clearLoadedMissionItems s)._resolutionFact = s._resolutionFact := by
  unfold clearLoadedMissionItems; split_ifs <;> rfl

@[simp] theorem clearLoadedMissionItems_spacing {α C : Type} (s : State α C) :
    (clearLoadedMissionItems s)._distanceBetweenSpiralsFact = s._distanceBetweenSpiralsFact := by
  unfold clearLoadedMissionItems; split_ifs <;> rfl

/-- A successful run of the worker either leaves `_transects` untouched (one of
the early returns) or runs the conversion loop over two-point transects,
starting from the old value of `_transects`. -/
theorem worker_ok_cases {α C : Type} [LinearOrderedField α] [FloorRing α]
    (env : Env α C) (fuel : Nat) (refly : Bool) (s s' : State α C)
    (h : _rebuildTransectsPhase1WorkerSinglePolygon env fuel refly s = .ok s') :
    s'._transects = s._transects ∨
      ∃ ts : List (List C), (∀ t ∈ ts, TwoPoint t)
        ∧ appendCoordInfoTransects env (clearLoadedMissionItems s) ts s._transects
            = .ok s'._transects := by
  unfold _rebuildTransectsPhase1WorkerSinglePolygon at h
  have ht : (clearLoadedMissionItems s)._transects = s._transects := by simp
  generalize clearLoadedMissionItems s = s₁ at h ht ⊢
  by_cases h1 : s._ignoreRecalc = true
  · simp only [h1, if_true] at h
    cases h
    exact Or.inl rfl
  · rw [if_neg h1] at h
    simp only [] at h
    by_cases h2 : s₁._surveyAreaPolygon.length < 3
    · simp only [h2, if_true] at h
      injection h with h
      subst h
      exact Or.inl ht
    · rw [if_neg h2] at h
      by_cases h3 : s₁._radiusFact ≤ 0
          ∨ s₁._resolutionFact ≤ 0
          ∨ s₁._distanceBetweenSpiralsFact ≤ 0
      · simp only [h3, if_true] at h
        injection h with h
        subst h
        exact Or.inl ht
      · right
        rw [if_neg h3] at h
        simp only [bind, Except.bind, pure, Except.pure] at h
        cases hgen : spiralLoop
            (spiralCoord env (env.center s₁._surveyAreaPolygon)) env.pi
            s₁._radiusFact
            s₁._distanceBetweenSpiralsFact
            (1 / s₁._resolutionFact) fuel 0 with
        | error e => simp only [hgen, reduceCtorEq] at h
        | ok raw =>
          simp only [hgen] at h
          have hraw := spiralLoop_twoPoint _ _ _ _ _ _ _ _ hgen
          have hadj := twoPoint_adjust s₁ hraw
          cases refly with
          | false =>
            simp only [Bool.false_eq_true, if_false] at h
            cases hconv : appendCoordInfoTransects env s₁
                (applyAlternate s₁._flyAlternateTransectsFact
                  (_adjustTransectsToEntryPointLocation s₁ raw))
                s₁._transects with
            | error e => simp only [hconv, reduceCtorEq] at h
            | ok out =>
              simp only [hconv] at h
              injection h with h
              subst h
              refine ⟨_, twoPoint_applyAlternate s₁._flyAlternateTransectsFact hadj, ?_⟩
              rw [← ht]
              exact hconv
          | true =>
            simp only [if_true] at h
            cases hl1 : qLast s₁._transects with
            | error e => simp only [hl1, reduceCtorEq] at h
            | ok lastTransect =>
              cases hl2 : qLast lastTransect with
              | error e => simp only [hl1, hl2, reduceCtorEq] at h
              | ok lastPoint =>
                cases hopt : _optimizeTransectsForShortestDistance env lastPoint.coord
                    (_adjustTransectsToEntryPointLocation s₁ raw) with
                | error e => simp only [hl1, hl2, hopt, reduceCtorEq] at h
                | ok opt =>
                  simp only [hl1, hl2, hopt] at h
                  have hoptTwo := twoPoint_optimize env _ hadj hopt
                  cases hconv : appendCoordInfoTransects env s₁
                      (applyAlternate s₁._flyAlternateTransectsFact opt)
                      s₁._transects with
                  | error e => simp only [hconv, reduceCtorEq] at h
                  | ok out =>
                    simp only [hconv] at h
                    injection h with h
                    subst h
                    refine ⟨_, twoPoint_applyAlternate s₁._flyAlternateTransectsFact hoptTwo, ?_⟩
                    rw [← ht]
                    exact hconv


/-! ### Evaluation in `hoverState` -/

theorem innerHoverPoints_hoverState : innerHoverPoints lineEnv hoverState 1 2 = 2 := by
  have hf : ⌊(|(1 : ℚ) - 2| / (1 / 2))⌋ = 2 := by norm_num [Int.floor_eq_iff, abs_of_neg]
  have hcast : staticCastInt 2 = 2 := by decide
  simp only [innerHoverPoints, hoverState, lineState, lineEnv, hf, hcast]
  norm_num [abs_of_neg]
  rfl

theorem coordInfoTransect_hoverState :
    coordInfoTransect lineEnv hoverState [1, 2] = .ok hoverTransect := by
  rw [coordInfoTransect_pair, innerHoverPoints_hoverState]
  simp [taggedTransect, hoverTransect, hoverPoint, List.range_succ, lineEnv, hoverState,
    lineState]
  norm_num

theorem worker_hoverState :
    _rebuildTransectsPhase1WorkerSinglePolygon lineEnv 2 false hoverState
      = .ok { hoverState with _transects := [hoverTransect] } := by
  have hgen : spiralLoop (spiralCoord lineEnv 1) 3 (1 : ℚ) 6 (1 / 1) 2 0 = .ok [[1, 2]] := by
    norm_num [spiralLoop, spiralCoord, lineEnv]
  have hclear : clearLoadedMissionItems hoverState = hoverState := by
    simp [clearLoadedMissionItems, hoverState, lineState]
  have hcenter : lineEnv.center hoverState._surveyAreaPolygon = 1 := by
    norm_num [lineEnv, hoverState, lineState]
  unfold _rebuildTransectsPhase1WorkerSinglePolygon
  rw [hclear]
  have e1 : hoverState._ignoreRecalc = false := rfl
  have e2 : hoverState._surveyAreaPolygon.length = 3 := rfl
  have e3 : hoverState._radiusFact = 1 := rfl
  have e4 : hoverState._resolutionFact = 1 := rfl
  have e5 : hoverState._distanceBetweenSpiralsFact = 6 := rfl
  have e6 : hoverState._flyAlternateTransectsFact = false := rfl
  have e7 : hoverState._Rotate = false := rfl
  have e8 : hoverState._transects = [] := rfl
  have e9 : lineEnv.pi = 3 := rfl
  simp only [e1, e2, e3, e4, e5, e6, e9, hcenter, hgen, bind, Except.bind, pure, Except.pure]
  norm_num [_adjustTransectsToEntryPointLocation, e7, e8, applyAlternate,
    appendCoordInfoTransects, coordInfoTransect_hoverState]


/-- C5 (witness): the transect from 1 to 2 in `hoverState` (camera triggered,
hover-and-capture on, trigger distance one half, length one) is converted
without fault and receives `floor (1 / (1/2))` hover points. -/
theorem hover_point_count_witness :
    (0 : ℚ) < hoverState.triggerDistance
      ∧ ⌊lineEnv.distanceTo 1 2 / hoverState.triggerDistance⌋ ≤ 2147483647
      ∧ ∃ ct, coordInfoTransect lineEnv hoverState [1, 2] = .ok ct
        ∧ (hoverCount ct : Int) = ⌊lineEnv.distanceTo 1 2 / hoverState.triggerDistance⌋ :=
  have hfloor : ⌊lineEnv.distanceTo 1 2 / hoverState.triggerDistance⌋ = 2 := by
    norm_num [hoverState, lineState, lineEnv, abs_of_neg, Int.floor_eq_iff]
  ⟨by norm_num [hoverState, lineState], by rw [hfloor]; norm_num,
    match hover_point_count lineEnv hoverState 1 2 (by norm_num [hoverState, lineState]) with
    | ⟨ct, hrun, hon, _⟩ =>
      ⟨ct, hrun, (hon ⟨rfl, rfl⟩).1 (by norm_num [hoverState, lineState, lineEnv, abs_of_neg])
        (by rw [hfloor]; norm_num)⟩⟩

/-- C5 (counterexample): in `overflowState` the camera is triggered,
hover-and-capture is on and the trigger distance is `1 / 2^31`; for the transect
from 0 to 1, of length 1, `floor (L / d)` is `2^31`, one more than `INT_MAX`,
and the tagged transect built holds the entry and exit points only. -/
theorem hover_count_exceeds_int :
    (0 : ℚ) < overflowState.triggerDistance
      ∧ overflowState.triggerDistance < lineEnv.distanceTo 0 1
      ∧ ⌊lineEnv.distanceTo 0 1 / overflowState.triggerDistance⌋ = 2147483648
      ∧ coordInfoTransect lineEnv overflowState [0, 1]
          = .ok [{ coord := 0, coordType := .CoordTypeSurveyEntry },
                 { coord := 1, coordType := .CoordTypeSurveyExit }]
      ∧ (hoverCount ([{ coord := 0, coordType := .CoordTypeSurveyEntry },
                      { coord := 1, coordType := .CoordTypeSurveyExit }] :
            List (CoordInfo_t ℚ)) : Int)
          ≠ ⌊lineEnv.distanceTo 0 1 / overflowState.triggerDistance⌋ := by
  have hfloor : ⌊lineEnv.distanceTo 0 1 / overflowState.triggerDistance⌋ = 2147483648 := by
    norm_num [overflowState, lineState, lineEnv, Int.floor_eq_iff]
  have hcast : staticCastInt 2147483648 = -2147483648 := by decide
  have hn : innerHoverPoints lineEnv overflowState 0 1 = 0 := by
    have hlt : overflowState.triggerDistance < lineEnv.distanceTo 0 1 := by
      norm_num [overflowState, lineState, lineEnv]
    have hflags : (overflowState.triggerCamera && overflowState.hoverAndCaptureEnabled) = true :=
      rfl
    unfold innerHoverPoints
    rw [if_pos ⟨hflags, hlt⟩, hfloor, hcast]
    rfl
  refine ⟨by norm_num [overflowState, lineState], by norm_num [overflowState, lineState, lineEnv],
    hfloor, ?_, ?_⟩
  · rw [coordInfoTransect_pair, hn]
    simp [taggedTransect]
  · rw [hfloor]
    simp [hoverCount]

/-- C6 (amended): for a positive trigger distance, whatever the rotation, refly
and alternation settings, a successful run of the worker appends to `_transects`
only tagged transects that start with the entry point, end with the exit point
and hold in between the hover points at offsets `d, 2 * d, ...` along the
entry-to-exit bearing, the offsets increasing strictly and lying in `(0, L]`:
the last hover point may coincide with the exit point. -/
theorem worker_appends_segment_invariant {α C : Type} [LinearOrderedField α] [FloorRing α]
    (env : Env α C) (fuel : Nat) (refly : Bool) (s s' : State α C)
    (hd : 0 < s.triggerDistance)
    (h : _rebuildTransectsPhase1WorkerSinglePolygon env fuel refly s = .ok s') :
    ∃ appended, s'._transects = s._transects ++ appended
      ∧ ∀ ct ∈ appended, SegmentInvariant env s.triggerDistance ct := by
  rcases worker_ok_cases env fuel refly s s' h with hsame | ⟨ts, htwo, hconv⟩
  · exact ⟨[], by simp [hsame], by simp⟩
  · obtain ⟨appended, hrun, _, hall⟩ :=
      appendCoordInfoTransects_twoPoint env (clearLoadedMissionItems s) ts s._transects htwo
    rw [hrun] at hconv
    injection hconv with hconv
    refine ⟨appended, hconv.symm, ?_⟩
    intro ct hct
    obtain ⟨a, b, _, rfl⟩ := hall ct hct
    have := segmentInvariant_taggedTransect env (clearLoadedMissionItems s) a b (by simpa using hd)
    simpa using this

/-- C6 (witness): the run of the worker in `hoverState`, which appends
`hoverTransect`. -/
theorem worker_appends_segment_invariant_witness :
    (0 : ℚ) < hoverState.triggerDistance
      ∧ _rebuildTransectsPhase1WorkerSinglePolygon lineEnv 2 false hoverState
          = .ok { hoverState with _transects := [hoverTransect] }
      ∧ ∃ appended, [hoverTransect] = hoverState._transects ++ appended
          ∧ ∀ ct ∈ appended, SegmentInvariant lineEnv hoverState.triggerDistance ct :=
  ⟨by norm_num [hoverState, lineState], worker_hoverState,
    worker_appends_segment_invariant lineEnv 2 false hoverState
      { hoverState with _transects := [hoverTransect] }
      (by norm_num [hoverState, lineState]) worker_hoverState⟩

/-- C6 (counterexample): in `hoverState` (trigger distance 1/2) the worker
appends the transect from 1 to 2, of length 1, with hover points at offsets 1/2
and 1: the second hover point is at the exit point, not strictly before it. -/
theorem hover_point_at_exit :
    _rebuildTransectsPhase1WorkerSinglePolygon lineEnv 2 false hoverState
        = .ok { hoverState with _transects := [hoverTransect] }
      ∧ (0 : ℚ) < hoverState.triggerDistance
      ∧ ¬ SegmentInvariantStrict lineEnv hoverState.triggerDistance hoverTransect := by
  refine ⟨worker_hoverState, by norm_num [hoverState, lineState], ?_⟩
  rintro ⟨a, b, n, hshape, _, hoff⟩
  have hlen := congrArg List.length hshape
  simp [taggedTransect, hoverTransect] at hlen
  have hn : n = 2 := by omega
  subst hn
  simp [taggedTransect, hoverTransect, List.range_succ, hoverPoint] at hshape
  obtain ⟨ha, _, _, hb⟩ := hshape
  subst ha hb
  have := (hoff 1 (by norm_num)).2
  norm_num [lineEnv, hoverState, lineState, abs_of_neg] at this


/-! ## C7: invalid geometry -/

/-- With an invalid geometry the worker takes one of its early returns: it does
not fault, whatever the fuel, and returns the state or the state with the loaded
mission items cleared. -/
theorem worker_invalid_geometry_cases {α C : Type} [LinearOrderedField α] [FloorRing α]
    (env : Env α C) (fuel : Nat) (refly : Bool) (s : State α C)
    (h : s._radiusFact ≤ 0 ∨ s._resolutionFact ≤ 0 ∨ s._distanceBetweenSpiralsFact ≤ 0
      ∨ s._surveyAreaPolygon.length < 3) :
    _rebuildTransectsPhase1WorkerSinglePolygon env fuel refly s = .ok s
      ∨ _rebuildTransectsPhase1WorkerSinglePolygon env fuel refly s
          = .ok (clearLoadedMissionItems s) := by
  unfold _rebuildTransectsPhase1WorkerSinglePolygon
  by_cases h1 : s._ignoreRecalc = true
  · left
    rw [if_pos h1]
  · right
    rw [if_neg h1]
    simp only [clearLoadedMissionItems_polygon, clearLoadedMissionItems_radius,
      clearLoadedMissionItems_resolution, clearLoadedMissionItems_spacing]
    by_cases h2 : s._surveyAreaPolygon.length < 3
    · rw [if_pos h2]
    · rw [if_neg h2]
      have h3 : s._radiusFact ≤ 0 ∨ s._resolutionFact ≤ 0 ∨ s._distanceBetweenSpiralsFact ≤ 0 := by
        rcases h with h | h | h | h
        · exact Or.inl h
        · exact Or.inr (Or.inl h)
        · exact Or.inr (Or.inr h)
        · exact absurd h h2
      rw [if_pos h3]

/-- C7: if the radius, the resolution or the spacing is not positive, or the
polygon has fewer than three vertices, then the worker, as primary or as refly
pass and whatever the fuel, returns without fault and leaves `_transects`
unchanged; so does the whole of `_rebuildTransectsPhase1`, which therefore ends
with an empty `_transects` when started with one. -/
theorem invalid_geometry_appends_nothing {α C : Type} [LinearOrderedField α] [FloorRing α]
    (env : Env α C) (fuel : Nat) (s : State α C)
    (h : s._radiusFact ≤ 0 ∨ s._resolutionFact ≤ 0 ∨ s._distanceBetweenSpiralsFact ≤ 0
      ∨ s._surveyAreaPolygon.length < 3) :
    (∀ refly : Bool, ∃ s', _rebuildTransectsPhase1WorkerSinglePolygon env fuel refly s = .ok s'
        ∧ s'._transects = s._transects)
      ∧ (∃ s', _rebuildTransectsPhase1 env fuel s = .ok s' ∧ s'._transects = s._transects)
      ∧ (s._transects = [] →
          ∃ s', _rebuildTransectsPhase1 env fuel s = .ok s' ∧ s'._transects = []) := by
  have hworker : ∀ (refly : Bool) (t : State α C),
      (t._radiusFact ≤ 0 ∨ t._resolutionFact ≤ 0 ∨ t._distanceBetweenSpiralsFact ≤ 0
        ∨ t._surveyAreaPolygon.length < 3) →
      ∃ t', _rebuildTransectsPhase1WorkerSinglePolygon env fuel refly t = .ok t'
        ∧ t'._transects = t._transects
        ∧ (t'._radiusFact ≤ 0 ∨ t'._resolutionFact ≤ 0 ∨ t'._distanceBetweenSpiralsFact ≤ 0
            ∨ t'._surveyAreaPolygon.length < 3) := by
    intro refly t ht
    rcases worker_invalid_geometry_cases env fuel refly t ht with hrun | hrun
    · exact ⟨t, hrun, rfl, ht⟩
    · exact ⟨clearLoadedMissionItems t, hrun, by simp, by simpa using ht⟩
  have hphase : ∃ s', _rebuildTransectsPhase1 env fuel s = .ok s'
      ∧ s'._transects = s._transects := by
    obtain ⟨s₁, hrun₁, ht₁, hinv₁⟩ := hworker false s h
    obtain ⟨s₂, hrun₂, ht₂, _⟩ := hworker true s₁ hinv₁
    unfold _rebuildTransectsPhase1
    simp only [hrun₁, bind, Except.bind, pure, Except.pure]
    by_cases hre : s₁._refly90DegreesFact = true
    · rw [if_pos hre]
      exact ⟨s₂, hrun₂, ht₂.trans ht₁⟩
    · rw [if_neg hre]
      exact ⟨s₁, rfl, ht₁⟩
  refine ⟨fun refly => ?_, hphase, fun hempty => ?_⟩
  · obtain ⟨s', hrun, ht, _⟩ := hworker refly s h
    exact ⟨s', hrun, ht⟩
  · obtain ⟨s', hrun, ht⟩ := hphase
    exact ⟨s', hrun, ht.trans hempty⟩

/-- C7 (witness): `lineState` with radius 0 and refly on, with no fuel at all. -/
theorem invalid_geometry_appends_nothing_witness :
    ((({ lineState with _radiusFact := 0, _refly90DegreesFact := true } : State ℚ ℚ)._radiusFact
        ≤ 0)
      ∧ ∃ s', _rebuildTransectsPhase1 lineEnv 0
          { lineState with _radiusFact := 0, _refly90DegreesFact := true } = .ok s'
        ∧ s'._transects = []) :=
  ⟨le_refl _,
    (invalid_geometry_appends_nothing lineEnv 0
      { lineState with _radiusFact := 0, _refly90DegreesFact := true }
      (Or.inl (le_refl _))).2.2 rfl⟩


/-! ## C8: selection of the shot-count strategy -/

/-- C8: in every state, if the trigger distance is 0 the call sets the shot
count to 0, whatever the other members; otherwise, if
`cameraTriggerInTurnaround` is set, it sets it to
`ceil (complexDistance / triggerDistance)`, whatever the loaded mission items
and the transects.  Neither case faults. -/
theorem recalcCameraShots_strategy {α C : Type} [LinearOrderedField α] [FloorRing α]
    (env : Env α C) (s : State α C) :
    (s.triggerDistance = 0 → _recalcCameraShots env s = .ok { s with _cameraShots := 0 })
      ∧ (s.triggerDistance ≠ 0 → s._cameraTriggerInTurnAroundFact = true →
          _recalcCameraShots env s
            = .ok { s with _cameraShots := ⌈s._complexDistance / s.triggerDistance⌉ }) := by
  constructor
  · intro h0
    simp [_recalcCameraShots, recalcCameraShotsValue, h0, bind, Except.bind, pure, Except.pure]
  · intro h0 ht
    simp [_recalcCameraShots, recalcCameraShotsValue, h0, ht, qCeil, bind, Except.bind, pure,
      Except.pure]

/-- C8 (witness): `lineState` with trigger distance 0, and with trigger distance
5, `cameraTriggerInTurnaround` set and a path of length 12. -/
theorem recalcCameraShots_strategy_witness :
    _recalcCameraShots lineEnv ({ lineState with triggerDistance := 0 } : State ℚ ℚ)
        = .ok { lineState with triggerDistance := 0, _cameraShots := 0 }
      ∧ _recalcCameraShots lineEnv
          ({ lineState with _cameraTriggerInTurnAroundFact := true, _complexDistance := 12 } :
            State ℚ ℚ)
        = .ok { lineState with
                _cameraTriggerInTurnAroundFact := true
                _complexDistance := 12
                _cameraShots := ⌈(12 : ℚ) / 5⌉ } :=
  ⟨(recalcCameraShots_strategy lineEnv { lineState with triggerDistance := 0 }).1 rfl,
    (recalcCameraShots_strategy lineEnv
      { lineState with _cameraTriggerInTurnAroundFact := true, _complexDistance := 12 }).2
      (by norm_num [lineState]) rfl⟩


/-! ## C9: shot count from the transects -/

theorem transectShotsStep_eq {α C : Type} [LinearOrderedField α] [FloorRing α]
    (env : Env α C) (s : State α C) (t : List (CoordInfo_t C)) (h2 : 2 ≤ t.length) :
    ∃ n, segmentShots env s t = some n
      ∧ ∀ acc : Int, transectShotsStep env s acc t = .ok (acc + n) := by
  have hlen1 : 1 < t.length := h2
  have hrev1 : 1 < t.reverse.length := by simpa using hlen1
  have hlast : t.length - 2 < t.length := by omega
  have hne : t ≠ [] := by
    intro h; simp [h] at h2
  have hget1 : t[1]? = some t[1] := List.getElem?_eq_getElem hlen1
  have hgetl : t[t.length - 2]? = some t[t.length - 2] := List.getElem?_eq_getElem hlast
  have hrev : t.reverse[1]? = some t[t.length - 2] := by
    rw [List.getElem?_reverse hlen1, ← hgetl]
    congr 1
  have hhead : t.head? = some (t.head hne) := List.head?_eq_head hne
  have hgl : t.getLast? = some (t.getLast hne) := List.getLast?_eq_getLast t hne
  have hfirst : qFirst t = .ok (t.head hne) := by
    cases t with
    | nil => exact absurd rfl hne
    | cons x xs => rfl
  have hnonneg : ¬ ((t.length : Int) - 2 < 0) := by omega
  have htoNat : ((t.length : Int) - 2).toNat = t.length - 2 := by omega
  by_cases hskip : (_hasTurnaround s && !s.hoverAndCaptureEnabled) = true
  · have hskip' : (decide (0 < s._turnAroundDistance) && !s.hoverAndCaptureEnabled) = true := by
      simpa [_hasTurnaround] using hskip
    refine ⟨⌈env.distanceTo t[1].coord t[t.length - 2].coord / s.triggerDistance⌉, ?_, ?_⟩
    · simp [segmentShots, cameraSpan, hskip', hget1, hrev]
    · intro acc
      simp [transectShotsStep, hskip, qAt, qAtInt, hget1, hnonneg, htoNat, hgetl, qCeil, bind,
        Except.bind, pure, Except.pure]
  · have hskip' : ¬ (decide (0 < s._turnAroundDistance) && !s.hoverAndCaptureEnabled) = true := by
      simpa [_hasTurnaround] using hskip
    refine ⟨⌈env.distanceTo (t.head hne).coord (t.getLast hne).coord / s.triggerDistance⌉, ?_, ?_⟩
    · simp [segmentShots, cameraSpan, hskip', hhead, hgl]
    · intro acc
      simp [transectShotsStep, hskip, hfirst, qLast, hgl, qCeil, bind, Except.bind, pure,
        Except.pure]

theorem foldlM_transectShotsStep {α C : Type} [LinearOrderedField α] [FloorRing α]
    (env : Env α C) (s : State α C) :
    ∀ (ts : List (List (CoordInfo_t C))) (acc : Int), (∀ t ∈ ts, 2 ≤ t.length) →
      ∃ total, transectShotsSum env s ts = some total
        ∧ ts.foldlM (transectShotsStep env s) acc = .ok (acc + total) := by
  intro ts
  induction ts with
  | nil => intro acc _; exact ⟨0, rfl, by simp [pure, Except.pure]⟩
  | cons t ts ih =>
    intro acc h
    obtain ⟨n, hn, hstep⟩ := transectShotsStep_eq env s t (h t (List.mem_cons_self _ _))
    obtain ⟨m, hm, hrest⟩ := ih (acc + n) (fun t ht => h t (List.mem_cons_of_mem _ ht))
    refine ⟨n + m, by simp [transectShotsSum, hn, hm], ?_⟩
    rw [List.foldlM_cons, hstep]
    simp only [bind, Except.bind]
    rw [hrest, add_assoc]

/-- C9: when the trigger distance is not 0, `cameraTriggerInTurnaround` is off
and no mission items are loaded, and every transect has at least two points,
the camera span of every transect exists and the call sets the shot count to the
sum over all transects of `ceil (dist (a, b) / triggerDistance)`, where `(a, b)`
is (second point, second-to-last point) if a turnaround distance greater than 0
exists and hover-and-capture is off, and (first point, last point) otherwise. -/
theorem recalcCameraShots_from_transects {α C : Type} [LinearOrderedField α] [FloorRing α]
    (env : Env α C) (s : State α C) (hd : s.triggerDistance ≠ 0)
    (hturn : s._cameraTriggerInTurnAroundFact = false)
    (hloaded : s._loadedMissionItemsParent = false)
    (h2 : ∀ t ∈ s._transects, 2 ≤ t.length) :
    ∃ total, transectShotsSum env s s._transects = some total
      ∧ _recalcCameraShots env s = .ok { s with _cameraShots := total } := by
  obtain ⟨total, hsum, hfold⟩ := foldlM_transectShotsStep env s s._transects 0 h2
  refine ⟨total, hsum, ?_⟩
  simp [_recalcCameraShots, recalcCameraShotsValue, hd, hturn, hloaded, hfold, bind,
    Except.bind, pure, Except.pure]


/-- C9 (witness): `shotState`, whose only transect has four points; with a
turnaround distance of 1 and hover-and-capture off the outer points are
skipped. -/
theorem recalcCameraShots_from_transects_witness :
    shotState.triggerDistance ≠ 0
      ∧ (∀ t ∈ shotState._transects, 2 ≤ t.length)
      ∧ ∃ total, transectShotsSum lineEnv shotState shotState._transects = some total
          ∧ _recalcCameraShots lineEnv shotState = .ok { shotState with _cameraShots := total } :=
  ⟨by norm_num [shotState, lineState], by simp [shotState, hoverTransect],
    recalcCameraShots_from_transects lineEnv shotState (by norm_num [shotState, lineState])
      rfl rfl (by simp [shotState, hoverTransect])⟩


/-! ## C10: shot count from the loaded mission items -/

theorem lastWaypointCoord_append_singleton {α C : Type} (env : Env α C)
    (l : List (MissionItem α)) (m : MissionItem α) :
    lastWaypointCoord env (l ++ [m])
      = if isWaypoint m then env.mkCoord m.param5 m.param6 else lastWaypointCoord env l := by
  unfold lastWaypointCoord
  by_cases hm : isWaypoint m = true
  · simp [List.filter_append, hm, List.filter_cons]
  · simp [List.filter_append, hm, List.filter_cons]

theorem takeWhile_append_singleton_of_all {β : Type} (p : β → Bool) (m : β) :
    ∀ l : List β, l.all p = true →
      (l ++ [m]).takeWhile p = l ++ [m].takeWhile p
        ∧ (l ++ [m]).dropWhile p = [m].dropWhile p
        ∧ l.takeWhile p = l ∧ l.dropWhile p = []
  | [], _ => by simp
  | x :: l, h => by
    have hx : p x = true := by
      simp only [List.all_cons, Bool.and_eq_true] at h; exact h.1
    have hl : l.all p = true := by
      simp only [List.all_cons, Bool.and_eq_true] at h; exact h.2
    obtain ⟨h1, h2, h3, h4⟩ := takeWhile_append_singleton_of_all p m l hl
    refine ⟨?_, ?_, ?_, ?_⟩
    · rw [List.cons_append, List.takeWhile_cons_of_pos hx, h1, List.cons_append]
    · rw [List.cons_append, List.dropWhile_cons_of_pos hx, h2]
    · rw [List.takeWhile_cons_of_pos hx, h3]
    · rw [List.dropWhile_cons_of_pos hx, h4]

theorem takeWhile_append_singleton_of_not_all {β : Type} (p : β → Bool) (m : β) :
    ∀ l : List β, l.all p = false →
      (l ++ [m]).takeWhile p = l.takeWhile p
        ∧ (l ++ [m]).dropWhile p = l.dropWhile p ++ [m]
  | [], h => by simp at h
  | x :: l, h => by
    by_cases hx : p x = true
    · have hl : l.all p = false := by
        simpa [List.all_cons, hx] using h
      obtain ⟨h1, h2⟩ := takeWhile_append_singleton_of_not_all p m l hl
      constructor
      · rw [List.cons_append, List.takeWhile_cons_of_pos hx, h1, List.takeWhile_cons_of_pos hx]
      · rw [List.cons_append, List.dropWhile_cons_of_pos hx, h2, List.dropWhile_cons_of_pos hx]
    · constructor
      · rw [List.cons_append, List.takeWhile_cons_of_neg hx, List.takeWhile_cons_of_neg hx]
      · rw [List.cons_append, List.dropWhile_cons_of_neg hx, List.dropWhile_cons_of_neg hx,
          List.cons_append]

theorem lastWaypointCoord_nil {α C : Type} (env : Env α C) :
    lastWaypointCoord env ([] : List (MissionItem α)) = env.invalid := rfl

theorem replayInv_step {α C : Type} [LinearOrderedField α] [FloorRing α] (env : Env α C)
    (d : α) (chunk : List (MissionItem α)) (st : Replay C) (m : MissionItem α)
    (hm : isTriggerStop m = false) (h : ReplayInv env chunk st) :
    ReplayInv env (chunk ++ [m]) (replayStep env d st m)
      ∧ (replayStep env d st m).cameraShots = st.cameraShots := by
  obtain ⟨hw, hs, he⟩ := h
  have hne : MAV_CMD_NAV_WAYPOINT ≠ MAV_CMD_DO_SET_CAM_TRIGG_DIST := by decide
  -- classify the command
  by_cases hway : m.command = MAV_CMD_NAV_WAYPOINT
  · have hisw : isWaypoint m = true := by simp [isWaypoint, hway]
    have hiss : isTriggerStart m = false := by simp [isTriggerStart, hway, hne]
    cases hall : chunk.all (fun m => !isTriggerStart m) with
    | true =>
      obtain ⟨t1, t2, t3, t4⟩ := takeWhile_append_singleton_of_all _ m chunk hall
      have hwait : st.waitingForTriggerStop = false := by simpa [hall] using hw
      refine ⟨⟨?_, ?_, ?_⟩, ?_⟩
      · simp [replayStep, hway, hwait, List.all_append, hall, hiss]
      · rw [t1]
        simp [replayStep, hway, hwait, hiss, lastWaypointCoord_append_singleton, hisw]
      · rw [t2]
        simp [replayStep, hway, hwait, hiss, he, t4]
      · simp [replayStep, hway, hwait]
    | false =>
      obtain ⟨t1, t2⟩ := takeWhile_append_singleton_of_not_all _ m chunk hall
      have hwait : st.waitingForTriggerStop = true := by simpa [hall] using hw
      refine ⟨⟨?_, ?_, ?_⟩, ?_⟩
      · simp [replayStep, hway, hwait, List.all_append, hall]
      · rw [t1]
        simp [replayStep, hway, hwait, hs]
      · rw [t2]
        simp [replayStep, hway, hwait, lastWaypointCoord_append_singleton, hisw]
      · simp [replayStep, hway, hwait]
  · have hisw : isWaypoint m = false := by simp [isWaypoint, hway]
    by_cases htrig : m.command = MAV_CMD_DO_SET_CAM_TRIGG_DIST
    · have hpos : 0 < m.param1 := by
        simp only [isTriggerStop, htrig, decide_True, Bool.true_and, decide_eq_false_iff_not,
          not_le] at hm
        exact hm
      have hiss : isTriggerStart m = true := by simp [isTriggerStart, htrig, hpos]
      cases hall : chunk.all (fun m => !isTriggerStart m) with
      | true =>
        obtain ⟨t1, t2, t3, t4⟩ := takeWhile_append_singleton_of_all _ m chunk hall
        refine ⟨⟨?_, ?_, ?_⟩, ?_⟩
        · simp [replayStep, hway, htrig, hne.symm, hpos, List.all_append, hall, hiss]
        · rw [t1]
          simp [replayStep, hway, htrig, hne.symm, hpos, hiss, hs, t3]
        · rw [t2]
          have : lastWaypointCoord env [m] = env.invalid := by
            simp [lastWaypointCoord, List.filter_cons, hisw]
          simp [replayStep, hway, htrig, hne.symm, hpos, hiss, he, t4, this, lastWaypointCoord_nil]
        · simp [replayStep, hway, htrig, hne.symm, hpos]
      | false =>
        obtain ⟨t1, t2⟩ := takeWhile_append_singleton_of_not_all _ m chunk hall
        refine ⟨⟨?_, ?_, ?_⟩, ?_⟩
        · simp [replayStep, hway, htrig, hne.symm, hpos, List.all_append, hall]
        · rw [t1]
          simp [replayStep, hway, htrig, hne.symm, hpos, hs]
        · rw [t2]
          simp [replayStep, hway, htrig, hne.symm, hpos, lastWaypointCoord_append_singleton, hisw, he]
        · simp [replayStep, hway, htrig, hne.symm, hpos]
    · have hiss : isTriggerStart m = false := by simp [isTriggerStart, htrig]
      cases hall : chunk.all (fun m => !isTriggerStart m) with
      | true =>
        obtain ⟨t1, t2, t3, t4⟩ := takeWhile_append_singleton_of_all _ m chunk hall
        refine ⟨⟨?_, ?_, ?_⟩, ?_⟩
        · simp [replayStep, hway, htrig, List.all_append, hall, hiss, hw]
        · rw [t1]
          simp [replayStep, hway, htrig, hiss, hs, t3, lastWaypointCoord_append_singleton, hisw]
        · rw [t2]
          simp [replayStep, hway, htrig, hiss, he, t4]
        · simp [replayStep, hway, htrig]
      | false =>
        obtain ⟨t1, t2⟩ := takeWhile_append_singleton_of_not_all _ m chunk hall
        refine ⟨⟨?_, ?_, ?_⟩, ?_⟩
        · simp [replayStep, hway, htrig, List.all_append, hall, hw]
        · rw [t1]
          simp [replayStep, hway, htrig, hs]
        · rw [t2]
          simp [replayStep, hway, htrig, lastWaypointCoord_append_singleton, hisw, he]
        · simp [replayStep, hway, htrig]

theorem replayStep_stop {α C : Type} [LinearOrderedField α] [FloorRing α] (env : Env α C)
    (d : α) (st : Replay C) (m : MissionItem α) (hm : isTriggerStop m = true) :
    replayStep env d st m
      = { waitingForTriggerStop := false
          cameraShots := st.cameraShots +
            ⌈env.distanceTo st.distanceEndCoord st.distanceStartCoord / d⌉
          distanceStartCoord := env.invalid
          distanceEndCoord := env.invalid } := by
  have hne : MAV_CMD_DO_SET_CAM_TRIGG_DIST ≠ MAV_CMD_NAV_WAYPOINT := by decide
  simp only [isTriggerStop, Bool.and_eq_true, decide_eq_true_eq] at hm
  obtain ⟨hcmd, hle⟩ := hm
  simp [replayStep, hcmd, hne, not_lt.mpr hle, qCeil]

theorem foldl_replayStep_shots {α C : Type} [LinearOrderedField α] [FloorRing α]
    (env : Env α C) (d : α) (hsymm : ∀ a b, env.distanceTo a b = env.distanceTo b a) :
    ∀ (items chunk : List (MissionItem α)) (st : Replay C), ReplayInv env chunk st →
      (items.foldl (replayStep env d) st).cameraShots
        = st.cameraShots + pairedShots env d chunk items := by
  intro items
  induction items with
  | nil => intro chunk st _; simp [pairedShots]
  | cons m rest ih =>
    intro chunk st hinv
    rw [List.foldl_cons]
    cases hm : isTriggerStop m with
    | true =>
      rw [replayStep_stop env d st m hm, ih [] _ ⟨rfl, rfl, rfl⟩]
      obtain ⟨_, hs, he⟩ := hinv
      simp only [pairedShots, hm, if_true, pairShots]
      rw [hsymm, hs, he, add_assoc]
    | false =>
      obtain ⟨hinv', hshots⟩ := replayInv_step env d chunk st m hm hinv
      rw [ih _ _ hinv', hshots]
      simp [pairedShots, hm]

theorem foldl_replayStep_filter {α C : Type} [LinearOrderedField α] [FloorRing α]
    (env : Env α C) (d : α) :
    ∀ (items : List (MissionItem α)) (st : Replay C),
      (items.filter (fun m => isWaypoint m
          || decide (m.command = MAV_CMD_DO_SET_CAM_TRIGG_DIST))).foldl (replayStep env d) st
        = items.foldl (replayStep env d) st := by
  intro items
  induction items with
  | nil => intro st; rfl
  | cons m rest ih =>
    intro st
    by_cases hk : (isWaypoint m || decide (m.command = MAV_CMD_DO_SET_CAM_TRIGG_DIST)) = true
    · simp only [List.filter_cons, hk, if_true, List.foldl_cons, ih]
    · have hk' : m.command ≠ MAV_CMD_NAV_WAYPOINT
          ∧ m.command ≠ MAV_CMD_DO_SET_CAM_TRIGG_DIST := by
        simpa [isWaypoint] using hk
      have hstep : replayStep env d st m = st := by
        simp [replayStep, hk'.1, hk'.2]
      simp only [List.filter_cons, hk, Bool.false_eq_true, if_false, List.foldl_cons, ih, hstep]

/-- C10 (amended): when the trigger distance is not 0, `cameraTriggerInTurnaround`
is off, mission items are loaded and hover-and-capture is off, then for every
command sequence (the distance being symmetric) the call sets the shot count to
the sum, over every trigger-stop command, of
`ceil (dist (pairStart, pairEnd) / triggerDistance)`, where, among the commands
since the previous trigger-stop, `pairStart` is the position of the last
waypoint before the first trigger-start and `pairEnd` the position of the last
waypoint from that trigger-start on, a missing waypoint standing for the
default-constructed coordinate; removing the commands that are neither
waypoints nor trigger-distance commands does not change the count. -/
theorem recalcCameraShots_from_commands {α C : Type} [LinearOrderedField α] [FloorRing α]
    (env : Env α C) (s : State α C) (hd : s.triggerDistance ≠ 0)
    (hturn : s._cameraTriggerInTurnAroundFact = false)
    (hloaded : s._loadedMissionItemsParent = true)
    (hhover : s.hoverAndCaptureEnabled = false)
    (hsymm : ∀ a b, env.distanceTo a b = env.distanceTo b a) :
    _recalcCameraShots env s
        = .ok { s with
            _cameraShots := pairedShots env s.triggerDistance [] s._loadedMissionItems }
      ∧ recalcCameraShotsValue env
          { s with _loadedMissionItems := s._loadedMissionItems.filter (fun m =>
              isWaypoint m || decide (m.command = MAV_CMD_DO_SET_CAM_TRIGG_DIST)) }
        = recalcCameraShotsValue env s := by
  constructor
  · have h := foldl_replayStep_shots env s.triggerDistance hsymm s._loadedMissionItems []
      { waitingForTriggerStop := false
        distanceStartCoord := env.invalid
        distanceEndCoord := env.invalid
        cameraShots := 0 } ⟨rfl, rfl, rfl⟩
    simp only [zero_add] at h
    simp [_recalcCameraShots, recalcCameraShotsValue, hd, hturn, hloaded, hhover, h, bind,
      Except.bind, pure, Except.pure]
  · simp [recalcCameraShotsValue, hd, hturn, hloaded, hhover, foldl_replayStep_filter]

theorem lineEnvQt_symm : ∀ a b, lineEnvQt.distanceTo a b = lineEnvQt.distanceTo b a := by
  intro a b
  cases a <;> cases b <;> simp [lineEnvQt, abs_sub_comm]

/-- C10 (witness): `replayState`, with the seven commands of `replayItems`
loaded. -/
theorem recalcCameraShots_from_commands_witness :
    replayState.triggerDistance ≠ 0
      ∧ _recalcCameraShots lineEnvQt replayState
          = .ok { replayState with
              _cameraShots := pairedShots lineEnvQt replayState.triggerDistance []
                replayState._loadedMissionItems } :=
  ⟨by norm_num [replayState],
    (recalcCameraShots_from_commands lineEnvQt replayState (by norm_num [replayState])
      rfl rfl rfl lineEnvQt_symm).1⟩

/-- C10 (counterexample): with the commands waypoint 0, start, waypoint 3, stop,
start, waypoint 5, stop and trigger distance 1, the last waypoint seen before
the second trigger-start is the one at 3, so the sum of the claim is
`ceil (3 / 1) + ceil (2 / 1) = 5`; the code, which forgets both positions at a
trigger-stop, counts `3 + 0 = 3`. -/
theorem replay_forgets_waypoint_at_stop :
    _recalcCameraShots lineEnvQt replayState = .ok { replayState with _cameraShots := 3 }
      ∧ claimedShots lineEnvQt replayState.triggerDistance [] []
          replayState._loadedMissionItems = 5 := by
  constructor
  · have hne : MAV_CMD_DO_SET_CAM_TRIGG_DIST ≠ MAV_CMD_NAV_WAYPOINT := by decide
    simp [_recalcCameraShots, recalcCameraShotsValue, replayState, replayItems, replayStep,
      waypointAt, triggerDist, hne, lineEnvQt, qCeil, bind, Except.bind, pure, Except.pure]
  · have hne : MAV_CMD_DO_SET_CAM_TRIGG_DIST ≠ MAV_CMD_NAV_WAYPOINT := by decide
    simp [claimedShots, claimedPairShots, replayState, replayItems, isTriggerStop,
      isTriggerStart, isWaypoint, lastWaypointCoord, waypointAt, triggerDist, hne, hne.symm,
      lineEnvQt, List.filter_cons, List.takeWhile_cons, List.dropWhile_cons]
    norm_num

/-! ## C11: hover delay -/

theorem foldl_hoverTime {α β : Type} [LinearOrderedField α] (d : α) :
    ∀ (l : List (List β)) (a : α),
      l.foldl (fun hoverTime transect => hoverTime + d * (transect.length : α)) a
        = a + d * (((l.map List.length).sum : Nat) : α) := by
  intro l
  induction l with
  | nil => intro a; simp
  | cons t l ih =>
    intro a
    rw [List.foldl_cons, ih]
    simp only [List.map_cons, List.sum_cons]
    push_cast
    ring

theorem length_taggedTransect {α C : Type} [LinearOrderedField α] (env : Env α C)
    (d : α) (a b : C) (n : Nat) : (taggedTransect env d a b n).length = n + 2 := by
  simp [taggedTransect]

/-- C11 (amended): with hover-and-capture enabled the method returns the hover
delay multiplied by the total number of points of all transects, entry and exit
points included; when every transect consists of an entry point, hover points
and an exit point, that is the number of hover points plus two per transect.
With hover-and-capture disabled it returns 0. -/
theorem additionalTimeDelay_counts_all_points {α C : Type} [LinearOrderedField α]
    (s : State α C) :
    (s.hoverAndCaptureEnabled = true →
        additionalTimeDelay s
            = s._hoverAndCaptureDelaySeconds * ((pointTotal s._transects : Nat) : α)
          ∧ ((∀ ct ∈ s._transects, ct.length = hoverCount ct + 2) →
              additionalTimeDelay s
                = s._hoverAndCaptureDelaySeconds
                    * (((hoverPointTotal s._transects + 2 * s._transects.length : Nat)) : α)))
      ∧ (s.hoverAndCaptureEnabled = false → additionalTimeDelay s = 0) := by
  constructor
  · intro hh
    have hall : additionalTimeDelay s
        = s._hoverAndCaptureDelaySeconds * ((pointTotal s._transects : Nat) : α) := by
      simp [additionalTimeDelay, hh, foldl_hoverTime, pointTotal]
    refine ⟨hall, fun hshape => ?_⟩
    rw [hall]
    congr 2
    unfold pointTotal hoverPointTotal
    generalize s._transects = l at hshape
    induction l with
    | nil => simp
    | cons t l ih =>
      have ht := hshape t (List.mem_cons_self _ _)
      have hl := ih (fun ct hct => hshape ct (List.mem_cons_of_mem _ hct))
      simp only [List.map_cons, List.sum_cons, List.length_cons, hl, ht]
      omega
  · intro hh
    simp [additionalTimeDelay, hh]

/-- C11 (witness): `delayState`, whose transect has an entry point, two hover
points and an exit point: the delay is `4 * (2 + 2 * 1)`. -/
theorem additionalTimeDelay_counts_all_points_witness :
    delayState.hoverAndCaptureEnabled = true
      ∧ (∀ ct ∈ delayState._transects, ct.length = hoverCount ct + 2)
      ∧ additionalTimeDelay delayState
          = delayState._hoverAndCaptureDelaySeconds
              * (((hoverPointTotal delayState._transects
                    + 2 * delayState._transects.length : Nat)) : ℚ) :=
  ⟨rfl, by simp [delayState, hoverTransect, hoverCount],
    ((additionalTimeDelay_counts_all_points delayState).1 rfl).2
      (by simp [delayState, hoverTransect, hoverCount])⟩

/-- C11 (counterexample): in `delayState` hover-and-capture is enabled, the delay
is 4 seconds and the only transect holds two hover points between its entry and
exit points; the method returns `4 * 4 = 16`, not `4 * 2 = 8`. -/
theorem additionalTimeDelay_counts_entry_and_exit :
    delayState.hoverAndCaptureEnabled = true
      ∧ hoverPointTotal delayState._transects = 2
      ∧ additionalTimeDelay delayState = 16
      ∧ additionalTimeDelay delayState
          ≠ delayState._hoverAndCaptureDelaySeconds
              * ((hoverPointTotal delayState._transects : Nat) : ℚ) := by
  have h2 : hoverPointTotal delayState._transects = 2 := by
    simp [hoverPointTotal, delayState, hoverTransect, hoverCount]
  have h16 : additionalTimeDelay delayState = 16 := by
    simp [additionalTimeDelay, delayState, hoverState, hoverTransect]
    norm_num
  refine ⟨rfl, h2, h16, ?_⟩
  rw [h16, h2]
  norm_num [delayState]

/-! ## C13: reversals -/

/-- C13: reversing the transect order twice, and reversing the points inside
every transect twice, returns the original list; the two reversals commute. -/
theorem reversal_involutions {C : Type} (t : List (List C)) :
    _reverseTransectOrder (_reverseTransectOrder t) = t
      ∧ _reverseInternalTransectPoints (_reverseInternalTransectPoints t) = t
      ∧ _reverseTransectOrder (_reverseInternalTransectPoints t)
          = _reverseInternalTransectPoints (_reverseTransectOrder t) := by
  refine ⟨?_, ?_, ?_⟩
  · rw [reverseTransectOrder_eq, reverseTransectOrder_eq, List.reverse_reverse]
  · rw [reverseInternalTransectPoints_eq, reverseInternalTransectPoints_eq, List.map_map]
    have : (List.reverse ∘ List.reverse : List C → List C) = id := by
      funext l; simp
    rw [this, List.map_id]
  · rw [reverseTransectOrder_eq, reverseInternalTransectPoints_eq,
      reverseInternalTransectPoints_eq, reverseTransectOrder_eq, List.map_reverse]

/-! ## C15: the index check of `_nextTransectCoord` -/

/-- Below the count the call returns true with the point at the index; above
the count it returns false and leaves `coord` unchanged; at the count it reads
`transectPoints[count]`, outside the list. -/
theorem nextTransectCoord_cases {C : Type} (l : List C) (i : Nat) (coord : C) :
    (∀ h : i < l.length, _nextTransectCoord l i coord = .ok (true, l.get ⟨i, h⟩))
      ∧ (l.length < i → _nextTransectCoord l i coord = .ok (false, coord))
      ∧ (i = l.length → _nextTransectCoord l i coord = .error .indexOutOfRange) := by
  refine ⟨fun h => ?_, fun h => ?_, fun h => ?_⟩
  · have h1 : ¬ ((i : Int) > (l.length : Int)) := by omega
    have h2 : ¬ ((i : Int) < 0) := by omega
    simp [_nextTransectCoord, h1, h2, qAtInt, qAt, List.getElem?_eq_getElem h, bind,
      Except.bind, pure, Except.pure]
  · have h1 : (i : Int) > (l.length : Int) := by omega
    simp [_nextTransectCoord, h1]
  · subst h
    simp [_nextTransectCoord, qAtInt, qAt, bind, Except.bind]

/-- C15 (evaluation at the failing input): for the one-point list `[7]` and the
index 1, equal to the count, the check `pointIndex > count` does not fire and
the call reads `transectPoints[1]`, outside the list. -/
theorem nextTransectCoord_reads_at_count :
    _nextTransectCoord ([7] : List ℚ) 1 0 = .error .indexOutOfRange
      ∧ ¬ ((1 : Int) < (([7] : List ℚ).length : Int)) := by
  constructor
  · simp [_nextTransectCoord, qAtInt, qAt, bind, Except.bind]
  · simp

/-! ## C12: termination of the generation loop -/

/-- C12: for positive `pi`, radius, resolution and spacing there is a number
`n ≥ 1` such that, given fuel for `n + 1` tests, the loop stops and returns
exactly `n` two-point segments, segment `k` running from the sample at angle
`2 * k / resolution` to the sample at angle `(2 * k + 1) / resolution`; `n` is
the first `k` whose entry sample lies outside the circle.  The angles increase
strictly along the list and the exit angle of a segment is strictly below the
entry angle of the next one. -/
theorem spiral_generation_terminates {α P : Type} [LinearOrderedField α] [FloorRing α]
    (mkPoint : α → α → P) (pi radius resolution dbs : α) (hpi : 0 < pi) (hrad : 0 < radius)
    (hres : 0 < resolution) (hdbs : 0 < dbs) :
    ∃ n : Nat, 0 < n
      ∧ (∀ fuel, n < fuel →
          spiralLoop mkPoint pi radius dbs (1 / resolution) fuel 0
            = .ok ((List.range n).map (fun k : Nat =>
                [mkPoint (dbs * (2 * (k : α) / resolution) / (2 * pi)) (2 * (k : α) / resolution),
                 mkPoint (dbs * ((2 * (k : α) + 1) / resolution) / (2 * pi))
                   ((2 * (k : α) + 1) / resolution)])))
      ∧ (∀ k : Nat, k < n → dbs * (2 * (k : α) / resolution) / (2 * pi) ≤ radius)
      ∧ radius < dbs * (2 * (n : α) / resolution) / (2 * pi)
      ∧ ∀ k : Nat, 2 * (k : α) / resolution < (2 * (k : α) + 1) / resolution
          ∧ (2 * (k : α) + 1) / resolution < 2 * ((k + 1 : Nat) : α) / resolution := by
  classical
  have hden : 0 < 2 * pi := by positivity
  have hex : ∃ k : Nat, radius < dbs * (2 * (k : α) / resolution) / (2 * pi) := by
    obtain ⟨k, hk⟩ := exists_nat_gt (radius * (2 * pi) * resolution / (2 * dbs))
    refine ⟨k, ?_⟩
    rw [lt_div_iff₀ hden, mul_div_assoc', lt_div_iff₀ hres]
    rw [div_lt_iff₀ (by positivity)] at hk
    linarith
  have hfind := Nat.find_spec hex
  have hmin : ∀ k, k < Nat.find hex → dbs * (2 * (k : α) / resolution) / (2 * pi) ≤ radius :=
    fun k hk => not_lt.mp (Nat.find_min hex hk)
  have hpos : 0 < Nat.find hex := by
    rcases Nat.eq_zero_or_pos (Nat.find hex) with h0 | h0
    · rw [h0] at hfind
      simp at hfind
      exact absurd hfind (not_lt.mpr (le_of_lt hrad))
    · exact h0
  have e1 : ∀ k : Nat, (0 : α) + 2 * (k : α) * (1 / resolution) = 2 * (k : α) / resolution := by
    intro k; ring
  have e2 : ∀ k : Nat, (0 : α) + (2 * (k : α) + 1) * (1 / resolution)
      = (2 * (k : α) + 1) / resolution := by
    intro k; ring
  refine ⟨Nat.find hex, hpos, ?_, hmin, hfind, ?_⟩
  · intro fuel hfuel
    rw [spiralLoop_eq_range mkPoint pi radius dbs (1 / resolution) (Nat.find hex) fuel 0 hfuel
      (fun k hk => by rw [e1]; exact hmin k hk) (by rw [e1]; exact hfind)]
    congr 1
    apply List.map_congr_left
    intro k _
    simp only [spiralSegment, e1, e2]
  · intro k
    constructor
    · exact div_lt_div_of_pos_right (by linarith) hres
    · apply div_lt_div_of_pos_right _ hres
      push_cast
      linarith

/-- C12 (witness): with `pi = 3`, radius 1, resolution 1 and spacing 6 (implied
radius equal to the angle). -/
theorem spiral_generation_terminates_witness :
    ∃ n : Nat, 0 < n
      ∧ (∀ fuel, n < fuel →
          spiralLoop Sample.mk (3 : ℚ) 1 6 (1 / 1) fuel 0
            = .ok ((List.range n).map (fun k : Nat =>
                [Sample.mk (6 * (2 * (k : ℚ) / 1) / (2 * 3)) (2 * (k : ℚ) / 1),
                 Sample.mk (6 * ((2 * (k : ℚ) + 1) / 1) / (2 * 3)) ((2 * (k : ℚ) + 1) / 1)])))
      ∧ (∀ k : Nat, k < n → 6 * (2 * (k : ℚ) / 1) / (2 * 3) ≤ 1)
      ∧ (1 : ℚ) < 6 * (2 * (n : ℚ) / 1) / (2 * 3)
      ∧ ∀ k : Nat, 2 * (k : ℚ) / 1 < (2 * (k : ℚ) + 1) / 1
          ∧ (2 * (k : ℚ) + 1) / 1 < 2 * ((k + 1 : Nat) : ℚ) / 1 :=
  spiral_generation_terminates Sample.mk (3 : ℚ) 1 1 6 (by norm_num) (by norm_num)
    (by norm_num) (by norm_num)

/-! ## C14: the guard `_ignoreRecalc` after loading -/

/-- The method `_loadV3` returns with the guard clear whenever it was clear at
the call. -/
theorem loadV3_clears_guard {α C : Type} (json : V3Json α C) (s : State α C)
    (h : s._ignoreRecalc = false) : (_loadV3 json s).2._ignoreRecalc = false := by
  unfold _loadV3
  cases json.mainKeysValid <;> cases json.typeMatches <;> cases json.gridKeysValid <;>
    cases json.manualGrid <;> cases json.hasCameraObject <;> cases json.cameraKeysValid <;>
    cases json.polygon <;> simp [h]

/-- Started with the guard clear, `_loadV4V5` returns with the guard set exactly
when it is not loading a preset, the key and type checks pass and the polygon
fails to load. -/
theorem loadV4V5_guard_iff {α C : Type} (json : V4V5Json α C) (forPresets : Bool)
    (s : State α C) (h : s._ignoreRecalc = false) :
    (_loadV4V5 json forPresets s).2._ignoreRecalc = true
      ↔ (forPresets = false ∧ json.keysValid = true ∧ json.typeMatches = true
          ∧ json.polygon = none) := by
  unfold _loadV4V5
  cases json.keysValid <;> cases json.typeMatches <;> cases forPresets <;>
    cases json.polygon <;> cases json.baseLoads <;> simp [h]

/-- C14 (evaluation at the failing input): `_loadV4V5`, not for presets, on a
JSON object that passes the key and type checks but whose polygon does not
load, called with the guard clear, returns false with the guard set; the worker
then returns at once, for every fuel, without generating anything. -/
theorem loadV4V5_leaves_guard_set :
    lineState._ignoreRecalc = false
      ∧ (_loadV4V5 badPolygonJson false lineState).1 = false
      ∧ (_loadV4V5 badPolygonJson false lineState).2._ignoreRecalc = true
      ∧ ∀ (fuel : Nat) (refly : Bool),
          _rebuildTransectsPhase1WorkerSinglePolygon lineEnv fuel refly
              (_loadV4V5 badPolygonJson false lineState).2
            = .ok (_loadV4V5 badPolygonJson false lineState).2 := by
  refine ⟨rfl, rfl, rfl, fun fuel refly => ?_⟩
  have hg : (_loadV4V5 badPolygonJson false lineState).2._ignoreRecalc = true := rfl
  unfold _rebuildTransectsPhase1WorkerSinglePolygon
  rw [if_pos hg]

/-! ## C16: list accesses of the refly pass -/

theorem spiralLoop_error_outOfFuel {α P : Type} [LinearOrderedField α] (mkPoint : α → α → P)
    (pi radius dbs inc : α) :
    ∀ (fuel : Nat) (ang : α) (e : Fault),
      spiralLoop mkPoint pi radius dbs inc fuel ang = .error e → e = .outOfFuel := by
  intro fuel
  induction fuel with
  | zero =>
    intro ang e h
    simp only [spiralLoop] at h
    injection h with h
    exact h.symm
  | succ fuel ih =>
    intro ang e h
    simp only [spiralLoop] at h
    split_ifs at h with hr
    cases hrest : spiralLoop mkPoint pi radius dbs inc fuel (ang + inc + inc) with
    | error e' =>
      rw [hrest] at h
      injection h with h
      subst h
      exact ih _ _ hrest
    | ok rest => rw [hrest] at h; cases h

theorem spiralLoop_ne_nil {α P : Type} [LinearOrderedField α] (mkPoint : α → α → P)
    (pi radius dbs inc : α) (hrad : 0 ≤ radius) (fuel : Nat) (raw : List (List P))
    (h : spiralLoop mkPoint pi radius dbs inc fuel 0 = .ok raw) : raw ≠ [] := by
  cases fuel with
  | zero => simp [spiralLoop] at h
  | succ fuel =>
    simp only [spiralLoop, mul_zero, zero_div, gt_iff_lt, not_lt.mpr hrad, if_false] at h
    cases hrest : spiralLoop mkPoint pi radius dbs inc fuel (0 + inc + inc) with
    | error e => rw [hrest] at h; cases h
    | ok rest =>
      rw [hrest] at h
      injection h with h
      subst h
      simp

theorem adjust_ne_nil {α C : Type} (s : State α C) {t : List (List C)} (h : t ≠ []) :
    _adjustTransectsToEntryPointLocation s t ≠ [] := by
  unfold _adjustTransectsToEntryPointLocation
  split_ifs
  · exact h
  · rw [reverseTransectOrder_eq, reverseInternalTransectPoints_eq]
    simpa using h
  · exact h

theorem applyAlternate_ne_nil {β : Type} (flag : Bool) {t : List β} (h : t ≠ []) :
    applyAlternate flag t ≠ [] := by
  cases flag with
  | false => simpa [applyAlternate] using h
  | true =>
    intro hnil
    have hlen := (alternatingTransects_perm t).length_eq
    have : alternatingTransects t = [] := by simpa [applyAlternate] using hnil
    rw [this] at hlen
    exact h (List.length_eq_zero.mp hlen.symm)

/-- On a non-empty list of two-point transects every access of
`_optimizeTransectsForShortestDistance` is defined, and it returns a non-empty
list of two-point transects. -/
theorem optimize_ok {α C : Type} [LinearOrder α] (env : Env α C) (c : C)
    {t : List (List C)} (hne : t ≠ []) (h : ∀ x ∈ t, TwoPoint x) :
    ∃ t', _optimizeTransectsForShortestDistance env c t = .ok t' ∧ t' ≠ []
      ∧ ∀ x ∈ t', TwoPoint x := by
  obtain ⟨tFirst, hfirst⟩ : ∃ x, qFirst t = .ok x := by
    cases t with
    | nil => exact absurd rfl hne
    | cons x xs => exact ⟨x, rfl⟩
  have hfmem : tFirst ∈ t := by
    cases t with
    | nil => exact absurd rfl hne
    | cons x xs =>
      simp only [qFirst] at hfirst
      injection hfirst with hfirst
      subst hfirst
      exact List.mem_cons_self _ _
  have hlastmem : t.getLast hne ∈ t := List.getLast_mem hne
  have hlast : qLast t = .ok (t.getLast hne) := by
    simp [qLast, List.getLast?_eq_getLast t hne]
  obtain ⟨a, b, hab⟩ := h tFirst hfmem
  obtain ⟨a', b', hab'⟩ := h (t.getLast hne) hlastmem
  have hrun : ∃ t', _optimizeTransectsForShortestDistance env c t = .ok t'
      ∧ t'.length = t.length := by
    have hff : qFirst tFirst = .ok a := by rw [hab]; rfl
    have hfl : qLast tFirst = .ok b := by rw [hab]; rfl
    have hlf : qFirst (t.getLast hne) = .ok a' := by rw [hab']; rfl
    have hll : qLast (t.getLast hne) = .ok b' := by rw [hab']; rfl
    unfold _optimizeTransectsForShortestDistance
    simp only [hfirst, hlast, hff, hfl, hlf, hll, bind, Except.bind, pure, Except.pure]
    split_ifs <;>
      simp [reverseTransectOrder_eq, reverseInternalTransectPoints_eq]
  obtain ⟨t', ht', hlen⟩ := hrun
  refine ⟨t', ht', ?_, twoPoint_optimize env c h ht'⟩
  intro hnil
  rw [hnil] at hlen
  exact hne (List.length_eq_zero.mp hlen.symm)

@[simp] theorem clearLoadedMissionItems_ignoreRecalc {α C : Type} (s : State α C) :
    (clearLoadedMissionItems s)._ignoreRecalc = s._ignoreRecalc := by
  unfold clearLoadedMissionItems; split_ifs <;> rfl

@[simp] theorem clearLoadedMissionItems_refly {α C : Type} (s : State α C) :
    (clearLoadedMissionItems s)._refly90DegreesFact = s._refly90DegreesFact := by
  unfold clearLoadedMissionItems; split_ifs <;> rfl

/-- The run of the worker when the guard is clear, the geometry is valid and the
generation loop returns `raw`: provided, for the refly pass, that `_transects`
and its last transect are non-empty, no access faults and the worker appends
one non-empty tagged transect per generated transect, at least one. -/
theorem worker_run_valid {α C : Type} [LinearOrderedField α] [FloorRing α]
    (env : Env α C) (fuel : Nat) (refly : Bool) (s : State α C) (raw : List (List C))
    (hg : s._ignoreRecalc = false) (hp : ¬ s._surveyAreaPolygon.length < 3)
    (hv : ¬ (s._radiusFact ≤ 0 ∨ s._resolutionFact ≤ 0 ∨ s._distanceBetweenSpiralsFact ≤ 0))
    (hgen : spiralLoop (spiralCoord env (env.center s._surveyAreaPolygon)) env.pi s._radiusFact
      s._distanceBetweenSpiralsFact (1 / s._resolutionFact) fuel 0 = .ok raw)
    (hlast : refly = true → ∃ lastTransect lastPoint,
      qLast s._transects = .ok lastTransect ∧ qLast lastTransect = .ok lastPoint) :
    ∃ appended,
      _rebuildTransectsPhase1WorkerSinglePolygon env fuel refly s
          = .ok { clearLoadedMissionItems s with _transects := s._transects ++ appended }
        ∧ appended ≠ [] ∧ ∀ ct ∈ appended, ct ≠ [] := by
  have hrad : 0 ≤ s._radiusFact := by
    by_contra hneg
    exact hv (Or.inl (le_of_lt (not_le.mp hneg)))
  have hrawne : raw ≠ [] := spiralLoop_ne_nil _ _ _ _ _ hrad fuel raw hgen
  have hrawtwo := spiralLoop_twoPoint _ _ _ _ _ _ _ _ hgen
  have e1 := clearLoadedMissionItems_polygon s
  have e2 := clearLoadedMissionItems_radius s
  have e3 := clearLoadedMissionItems_resolution s
  have e4 := clearLoadedMissionItems_spacing s
  have ht := clearLoadedMissionItems_transects s
  rw [← e1] at hp hgen
  rw [← e2, ← e3, ← e4] at hv hgen
  rw [← ht] at hlast
  have hg' : ¬ s._ignoreRecalc = true := by simp [hg]
  unfold _rebuildTransectsPhase1WorkerSinglePolygon
  rw [if_neg hg']
  simp only []
  rw [← ht]
  generalize clearLoadedMissionItems s = s₁ at hp hv hgen hlast ⊢
  rw [if_neg hp, if_neg hv]
  simp only [hgen, bind, Except.bind, pure, Except.pure]
  have hadjne := adjust_ne_nil s₁ hrawne
  have hadjtwo := twoPoint_adjust s₁ hrawtwo
  -- the list handed to the conversion loop
  have hfinish : ∀ ts : List (List C), ts ≠ [] → (∀ x ∈ ts, TwoPoint x) →
      ∃ appended,
        appendCoordInfoTransects env s₁ (applyAlternate s₁._flyAlternateTransectsFact ts)
            s₁._transects = .ok (s₁._transects ++ appended)
        ∧ appended ≠ [] ∧ ∀ ct ∈ appended, ct ≠ [] := by
    intro ts htsne htstwo
    have haltne := applyAlternate_ne_nil s₁._flyAlternateTransectsFact htsne
    have halttwo := twoPoint_applyAlternate s₁._flyAlternateTransectsFact htstwo
    obtain ⟨appended, hrun, hlen, hall⟩ :=
      appendCoordInfoTransects_twoPoint env s₁ _ s₁._transects halttwo
    refine ⟨appended, hrun, ?_, ?_⟩
    · intro hnil
      rw [hnil] at hlen
      exact haltne (List.length_eq_zero.mp hlen.symm)
    · intro ct hct
      obtain ⟨a, b, _, rfl⟩ := hall ct hct
      simp [taggedTransect]
  cases refly with
  | false =>
    obtain ⟨appended, hrun, h1, h2⟩ := hfinish _ hadjne hadjtwo
    refine ⟨appended, ?_, h1, h2⟩
    simp only [Bool.false_eq_true, if_false, hrun]
  | true =>
    obtain ⟨lastTransect, lastPoint, hl1, hl2⟩ := hlast rfl
    obtain ⟨opt, hopt, hoptne, hopttwo⟩ := optimize_ok env lastPoint.coord hadjne hadjtwo
    obtain ⟨appended, hrun, h1, h2⟩ := hfinish _ hoptne hopttwo
    refine ⟨appended, ?_, h1, h2⟩
    simp only [if_true, hl1, hl2, hopt, hrun]

/-- When the guard is clear, the geometry is valid and the generation loop runs
out of fuel, so does the worker. -/
theorem worker_run_outOfFuel {α C : Type} [LinearOrderedField α] [FloorRing α]
    (env : Env α C) (fuel : Nat) (refly : Bool) (s : State α C) (e : Fault)
    (hg : s._ignoreRecalc = false) (hp : ¬ s._surveyAreaPolygon.length < 3)
    (hv : ¬ (s._radiusFact ≤ 0 ∨ s._resolutionFact ≤ 0 ∨ s._distanceBetweenSpiralsFact ≤ 0))
    (hgen : spiralLoop (spiralCoord env (env.center s._surveyAreaPolygon)) env.pi s._radiusFact
      s._distanceBetweenSpiralsFact (1 / s._resolutionFact) fuel 0 = .error e) :
    _rebuildTransectsPhase1WorkerSinglePolygon env fuel refly s = .error .outOfFuel := by
  have he := spiralLoop_error_outOfFuel _ _ _ _ _ _ _ _ hgen
  subst he
  have e1 := clearLoadedMissionItems_polygon s
  have e2 := clearLoadedMissionItems_radius s
  have e3 := clearLoadedMissionItems_resolution s
  have e4 := clearLoadedMissionItems_spacing s
  rw [← e1] at hp hgen
  rw [← e2, ← e3, ← e4] at hv hgen
  have hg' : ¬ s._ignoreRecalc = true := by simp [hg]
  unfold _rebuildTransectsPhase1WorkerSinglePolygon
  rw [if_neg hg']
  simp only []
  generalize clearLoadedMissionItems s = s₁ at hp hv hgen ⊢
  rw [if_neg hp, if_neg hv]
  simp only [hgen, bind, Except.bind]

theorem qLast_of_ne_nil {β : Type} (l : List β) (h : l ≠ []) : qLast l = .ok (l.getLast h) := by
  simp [qLast, List.getLast?_eq_getLast l h]

/-- The primary pass faults, if at all, by running out of fuel. -/
theorem primary_pass_error {α C : Type} [LinearOrderedField α] [FloorRing α]
    (env : Env α C) (fuel : Nat) (s : State α C) (e : Fault)
    (h : _rebuildTransectsPhase1WorkerSinglePolygon env fuel false s = .error e) :
    e = .outOfFuel := by
  by_cases hg : s._ignoreRecalc = true
  · unfold _rebuildTransectsPhase1WorkerSinglePolygon at h
    rw [if_pos hg] at h
    cases h
  · have hg' : s._ignoreRecalc = false := by simpa using hg
    by_cases hinv : s._radiusFact ≤ 0 ∨ s._resolutionFact ≤ 0
        ∨ s._distanceBetweenSpiralsFact ≤ 0 ∨ s._surveyAreaPolygon.length < 3
    · rcases worker_invalid_geometry_cases env fuel false s hinv with hrun | hrun <;>
        rw [hrun] at h <;> cases h
    · have hp : ¬ s._surveyAreaPolygon.length < 3 := fun hc => hinv (by simp [hc])
      have hv : ¬ (s._radiusFact ≤ 0 ∨ s._resolutionFact ≤ 0
          ∨ s._distanceBetweenSpiralsFact ≤ 0) := by
        rintro (hc | hc | hc)
        · exact hinv (Or.inl hc)
        · exact hinv (Or.inr (Or.inl hc))
        · exact hinv (Or.inr (Or.inr (Or.inl hc)))
      cases hgen : spiralLoop (spiralCoord env (env.center s._surveyAreaPolygon)) env.pi
          s._radiusFact s._distanceBetweenSpiralsFact (1 / s._resolutionFact) fuel 0 with
      | error e' =>
        rw [worker_run_outOfFuel env fuel false s e' hg' hp hv hgen] at h
        injection h with h
        exact h.symm
      | ok raw =>
        obtain ⟨appended, hrun, _, _⟩ := worker_run_valid env fuel false s raw hg' hp hv hgen
          (fun hc => by cases hc)
        rw [hrun] at h
        cases h

/-- The state after a primary pass started with the guard clear and `_transects`
empty: either the geometry is invalid and `_transects` is still empty, or the
geometry is valid, the generation loop returns with this fuel, and `_transects`
and its last transect are non-empty. -/
theorem primary_pass_cases {α C : Type} [LinearOrderedField α] [FloorRing α]
    (env : Env α C) (fuel : Nat) (s s₁ : State α C) (hguard : s._ignoreRecalc = false)
    (hempty : s._transects = [])
    (h1 : _rebuildTransectsPhase1WorkerSinglePolygon env fuel false s = .ok s₁) :
    s₁._ignoreRecalc = false ∧ s₁._refly90DegreesFact = s._refly90DegreesFact
      ∧ (((s₁._radiusFact ≤ 0 ∨ s₁._resolutionFact ≤ 0 ∨ s₁._distanceBetweenSpiralsFact ≤ 0
            ∨ s₁._surveyAreaPolygon.length < 3) ∧ s₁._transects = [])
        ∨ (¬ s₁._surveyAreaPolygon.length < 3
            ∧ ¬ (s₁._radiusFact ≤ 0 ∨ s₁._resolutionFact ≤ 0
                ∨ s₁._distanceBetweenSpiralsFact ≤ 0)
            ∧ s₁._transects ≠ []
            ∧ (∃ raw, spiralLoop (spiralCoord env (env.center s₁._surveyAreaPolygon)) env.pi
                  s₁._radiusFact s₁._distanceBetweenSpiralsFact (1 / s₁._resolutionFact) fuel 0
                  = .ok raw)
            ∧ ∃ lastTransect lastPoint, qLast s₁._transects = .ok lastTransect
                ∧ qLast lastTransect = .ok lastPoint)) := by
  by_cases hinv : s._radiusFact ≤ 0 ∨ s._resolutionFact ≤ 0
      ∨ s._distanceBetweenSpiralsFact ≤ 0 ∨ s._surveyAreaPolygon.length < 3
  · rcases worker_invalid_geometry_cases env fuel false s hinv with hrun | hrun
    · rw [hrun] at h1
      injection h1 with h1
      subst h1
      exact ⟨hguard, rfl, Or.inl ⟨hinv, hempty⟩⟩
    · rw [hrun] at h1
      injection h1 with h1
      subst h1
      exact ⟨by simpa using hguard, by simp, Or.inl ⟨by simpa using hinv, by simpa using hempty⟩⟩
  · have hp : ¬ s._surveyAreaPolygon.length < 3 := fun hc => hinv (by simp [hc])
    have hv : ¬ (s._radiusFact ≤ 0 ∨ s._resolutionFact ≤ 0
        ∨ s._distanceBetweenSpiralsFact ≤ 0) := by
      rintro (hc | hc | hc)
      · exact hinv (Or.inl hc)
      · exact hinv (Or.inr (Or.inl hc))
      · exact hinv (Or.inr (Or.inr (Or.inl hc)))
    cases hgen : spiralLoop (spiralCoord env (env.center s._surveyAreaPolygon)) env.pi
        s._radiusFact s._distanceBetweenSpiralsFact (1 / s._resolutionFact) fuel 0 with
    | error e =>
      rw [worker_run_outOfFuel env fuel false s e hguard hp hv hgen] at h1
      cases h1
    | ok raw =>
      obtain ⟨appended, hrun, hne, hall⟩ := worker_run_valid env fuel false s raw hguard hp hv
        hgen (fun hc => by cases hc)
      rw [hrun] at h1
      injection h1 with h1
      subst h1
      refine ⟨by simpa using hguard, by simp, Or.inr ⟨by simpa using hp, by simpa using hv, ?_,
        ⟨raw, by simpa using hgen⟩, ?_⟩⟩
      · simpa [hempty] using hne
      · have hne' : s._transects ++ appended ≠ [] := by simpa [hempty] using hne
        have hmem : (s._transects ++ appended).getLast hne' ∈ appended := by
          have := List.getLast_mem hne'
          simp [hempty] at this ⊢
        exact ⟨_, _, qLast_of_ne_nil _ hne', qLast_of_ne_nil _ (hall _ hmem)⟩

/-- C16: when `_rebuildTransectsPhase1` runs with refly enabled, the guard clear
and `_transects` empty, no list access is undefined: the run never faults with
an index out of range (it can only run out of fuel in the generation loop).
After a primary pass that emitted nothing, the refly pass returns at once with
`_transects` still empty; otherwise `_transects` and its last transect are
non-empty, the freshly generated list is a non-empty list of two-point
transects, and `_optimizeTransectsForShortestDistance` runs on it without
fault.  In both cases the refly pass, and with it the whole run, returns. -/
theorem refly_accesses_defined {α C : Type} [LinearOrderedField α] [FloorRing α]
    (env : Env α C) (fuel : Nat) (s : State α C) (hguard : s._ignoreRecalc = false)
    (hempty : s._transects = []) (hrefly : s._refly90DegreesFact = true) :
    _rebuildTransectsPhase1 env fuel s ≠ .error .indexOutOfRange
      ∧ ∀ s₁, _rebuildTransectsPhase1WorkerSinglePolygon env fuel false s = .ok s₁ →
          (s₁._transects = [] →
            ∃ s₂, _rebuildTransectsPhase1WorkerSinglePolygon env fuel true s₁ = .ok s₂
              ∧ s₂._transects = [])
          ∧ (s₁._transects ≠ [] →
              ∃ lastTransect lastPoint raw opt,
                qLast s₁._transects = .ok lastTransect
                  ∧ qLast lastTransect = .ok lastPoint
                  ∧ spiralLoop (spiralCoord env (env.center s₁._surveyAreaPolygon)) env.pi
                      s₁._radiusFact s₁._distanceBetweenSpiralsFact (1 / s₁._resolutionFact)
                      fuel 0 = .ok raw
                  ∧ raw ≠ [] ∧ (∀ t ∈ raw, TwoPoint t)
                  ∧ _optimizeTransectsForShortestDistance env lastPoint.coord
                      (_adjustTransectsToEntryPointLocation (clearLoadedMissionItems s₁) raw)
                      = .ok opt)
          ∧ ∃ s₂, _rebuildTransectsPhase1WorkerSinglePolygon env fuel true s₁ = .ok s₂
              ∧ _rebuildTransectsPhase1 env fuel s = .ok s₂ := by
  have hsecond : ∀ s₁, _rebuildTransectsPhase1WorkerSinglePolygon env fuel false s = .ok s₁ →
      (s₁._transects = [] →
        ∃ s₂, _rebuildTransectsPhase1WorkerSinglePolygon env fuel true s₁ = .ok s₂
          ∧ s₂._transects = [])
      ∧ (s₁._transects ≠ [] →
          ∃ lastTransect lastPoint raw opt,
            qLast s₁._transects = .ok lastTransect
              ∧ qLast lastTransect = .ok lastPoint
              ∧ spiralLoop (spiralCoord env (env.center s₁._surveyAreaPolygon)) env.pi
                  s₁._radiusFact s₁._distanceBetweenSpiralsFact (1 / s₁._resolutionFact)
                  fuel 0 = .ok raw
              ∧ raw ≠ [] ∧ (∀ t ∈ raw, TwoPoint t)
              ∧ _optimizeTransectsForShortestDistance env lastPoint.coord
                  (_adjustTransectsToEntryPointLocation (clearLoadedMissionItems s₁) raw)
                  = .ok opt)
      ∧ ∃ s₂, _rebuildTransectsPhase1WorkerSinglePolygon env fuel true s₁ = .ok s₂
          ∧ _rebuildTransectsPhase1 env fuel s = .ok s₂ := by
    intro s₁ h1
    obtain ⟨hg₁, hre₁, hcases⟩ := primary_pass_cases env fuel s s₁ hguard hempty h1
    have hphase : ∀ s₂, _rebuildTransectsPhase1WorkerSinglePolygon env fuel true s₁ = .ok s₂ →
        _rebuildTransectsPhase1 env fuel s = .ok s₂ := by
      intro s₂ h2
      unfold _rebuildTransectsPhase1
      simp only [h1, bind, Except.bind]
      rw [if_pos (hre₁.trans hrefly), h2]
    rcases hcases with ⟨hinv, ht⟩ | ⟨hp, hv, hne, ⟨raw, hgen⟩, lastTransect, lastPoint, hl1, hl2⟩
    · have hrun : ∃ s₂, _rebuildTransectsPhase1WorkerSinglePolygon env fuel true s₁ = .ok s₂
          ∧ s₂._transects = [] := by
        rcases worker_invalid_geometry_cases env fuel true s₁ hinv with hrun | hrun
        · exact ⟨_, hrun, ht⟩
        · exact ⟨_, hrun, by simpa using ht⟩
      obtain ⟨s₂, h2, ht₂⟩ := hrun
      exact ⟨fun _ => ⟨s₂, h2, ht₂⟩, fun hc => absurd ht hc, s₂, h2, hphase s₂ h2⟩
    · have hrawne : raw ≠ [] := by
        have hrad : 0 ≤ s₁._radiusFact := by
          by_contra hneg
          exact hv (Or.inl (le_of_lt (not_le.mp hneg)))
        exact spiralLoop_ne_nil _ _ _ _ _ hrad fuel raw hgen
      have hrawtwo := spiralLoop_twoPoint _ _ _ _ _ _ _ _ hgen
      obtain ⟨opt, hopt, _, _⟩ := optimize_ok env lastPoint.coord
        (adjust_ne_nil (clearLoadedMissionItems s₁) hrawne)
        (twoPoint_adjust (clearLoadedMissionItems s₁) hrawtwo)
      obtain ⟨appended, h2, _, _⟩ := worker_run_valid env fuel true s₁ raw hg₁ hp hv hgen
        (fun _ => ⟨lastTransect, lastPoint, hl1, hl2⟩)
      exact ⟨fun hc => absurd hc hne,
        fun _ => ⟨lastTransect, lastPoint, raw, opt, hl1, hl2, hgen, hrawne, hrawtwo, hopt⟩,
        _, h2, hphase _ h2⟩
  refine ⟨?_, hsecond⟩
  intro hfault
  cases h1 : _rebuildTransectsPhase1WorkerSinglePolygon env fuel false s with
  | error e =>
    have he := primary_pass_error env fuel s e h1
    subst he
    unfold _rebuildTransectsPhase1 at hfault
    simp only [h1, bind, Except.bind] at hfault
    cases hfault
  | ok s₁ =>
    obtain ⟨_, _, s₂, _, hok⟩ := hsecond s₁ h1
    rw [hok] at hfault
    cases hfault

/-- C16 (witness): `reflyState` with fuel for two tests of the generation loop;
both passes then append the transect from 1 to 2. -/
theorem refly_accesses_defined_witness :
    reflyState._ignoreRecalc = false ∧ reflyState._transects = []
      ∧ reflyState._refly90DegreesFact = true
      ∧ _rebuildTransectsPhase1 lineEnv 2 reflyState ≠ .error .indexOutOfRange :=
  ⟨rfl, rfl, rfl, (refly_accesses_defined lineEnv 2 reflyState rfl rfl rfl).1⟩

end SpiralComplexItem
